import Mathlib

/-!
# Single-decree Paxos over TCP: wire codec, acceptor and proposer engines

A shallow embedding of `communication/converter.go`, `communication/tcp.go`,
`paxosImpl/stateManager.go`, `paxosImpl/acceptor.go`, `paxosImpl/proposer.go`,
`util/config.go` (`ReadHostfile`), the dispatch loop and the channels of `main.go`.

Conventions.
* Go `int64` is `Int`; the range is the predicate `isInt64`, and the only
  arithmetic the program performs on it (`+= 1`) is `add64`, which wraps.
* A byte is `Fin 256`; a Go `string` / `[]byte` is `List Byte`.
* A Go `float64` is its IEEE-754 bit pattern (`math.Float64bits`), a `Nat`.
* A Go `interface{}` value is `Value`.
* A call `tcpCommunicator.Send…Message(target, proposal, value)` is recorded as
  the `Message` that `sendPaxosMessage` builds together with its target.
* A text is a `List Char`; a Go map over host ids is a list indexed by id, and
  the unspecified order of a `range` over it is an explicit `RangeOrder`.
-/

namespace Paxos

/-! ## Machine integers and bytes -/

abbrev Byte := Fin 256

/-- The range of a Go `int64`. -/
def isInt64 (x : Int) : Prop := -(2 : Int) ^ 63 ≤ x ∧ x < (2 : Int) ^ 63

instance (x : Int) : Decidable (isInt64 x) := by unfold isInt64; infer_instance

/-- Reduction of an integer to the `int64` range. -/
def wrap64 (x : Int) : Int := (x + 2 ^ 63) % 2 ^ 64 - 2 ^ 63

/-- Go `a + b` on `int64`. -/
def add64 (a b : Int) : Int := wrap64 (a + b)

/-- The low byte of a natural number. -/
def byteOf (n : Nat) : Byte := ⟨n % 256, Nat.mod_lt _ (by decide)⟩

/-- `binary.BigEndian.PutUint64`: the eight bytes of `n mod 2^64`, most significant first. -/
def putUint64 (n : Nat) : List Byte :=
  [byteOf (n / 2 ^ 56), byteOf (n / 2 ^ 48), byteOf (n / 2 ^ 40), byteOf (n / 2 ^ 32),
   byteOf (n / 2 ^ 24), byteOf (n / 2 ^ 16), byteOf (n / 2 ^ 8), byteOf n]

/-- `binary.BigEndian.Uint64` on a byte slice: the big-endian number it spells. -/
def beUint (bs : List Byte) : Nat := bs.foldl (fun acc b => acc * 256 + b.val) 0

/-- `uint64(x)` for an `int64` `x`: the bit pattern of the same residue mod 2^64. -/
def toUint64 (x : Int) : Nat := (x % 2 ^ 64).toNat

/-- `int64(n)` for a `uint64` `n`. -/
def toInt64 (n : Nat) : Int := if n < 2 ^ 63 then (n : Int) else (n : Int) - 2 ^ 64

/-- `binary.Write(buf, binary.BigEndian, x)` for an `int64`: the bytes appended. -/
def putInt64 (x : Int) : List Byte := putUint64 (toUint64 x)

/-! ## Values and messages (`communication/converter.go`) -/

/-- Message kinds. -/
def PREPARE : Int := 1
def PROMISE : Int := 2
def ACCEPT : Int := 3
def ACCEPTED : Int := 4

/-- Wire tags of the value variants. -/
def NIL : Int := 0
def INT64 : Int := 1
def FLOAT64 : Int := 2
def STRING : Int := 3

/-- A Go `interface{}` holding a message value.  `float64` carries the IEEE-754
bit pattern; `other` is a value of any dynamic type besides `int64`, `float64`
and `string` (the program never builds one; `ConvertToBinary` rejects it). -/
inductive Value where
  | nil
  | int64 (v : Int)
  | float64 (bits : Nat)
  | str (s : List Byte)
  | other (repr : Nat)
deriving DecidableEq, Repr

structure MessageHeader where
  SenderID : Int
  MessageType : Int
  PayloadSize : Int
deriving DecidableEq, Repr

structure PaxosMessage where
  Proposal : Int
  Value : Value
deriving DecidableEq, Repr

structure Message where
  Header : MessageHeader
  Payload : PaxosMessage
deriving DecidableEq, Repr

/-- The zero value `Message{}` returned next to an error. -/
def Message.zero : Message := ⟨⟨0, 0, 0⟩, ⟨0, Value.nil⟩⟩

/-- The errors the codec returns, one per `fmt.Errorf` site. -/
inductive CodecError where
  | unsupportedValueType
  | readSenderID
  | readMessageType
  | readPayloadSize
  | readProposal
  | readValueType
  | readInt64Value
  | readFloat64Value
  | readStringLength
  | readStringValue
  | unsupportedTypeIdentifier (t : Int)
  | readHeader
  | readPayload
deriving DecidableEq, Repr

/-- The outcome of a Go call that returns `(T, error)` and may also panic. -/
inductive GoResult (α : Type) where
  | ok (a : α)
  | err (e : CodecError)
  | panic
deriving DecidableEq, Repr

/-- The payload bytes `ConvertToBinary` writes after the proposal: the type
indicator and the value body (lines 50-87). -/
def encodeValue : Value → Except CodecError (List Byte)
  | Value.nil => Except.ok (putInt64 NIL)
  | Value.int64 v => Except.ok (putInt64 INT64 ++ putInt64 v)
  | Value.float64 bits => Except.ok (putInt64 FLOAT64 ++ putUint64 bits)
  | Value.str s => Except.ok (putInt64 STRING ++ putInt64 (s.length : Int) ++ s)
  | Value.other _ => Except.error CodecError.unsupportedValueType

/-- `ConvertToBinary`: header (sender, kind, computed payload size) followed by
the payload (proposal, type indicator, value body).  The `PayloadSize` of the
argument is overwritten by the length of the serialised payload. -/
def ConvertToBinary (message : Message) : Except CodecError (List Byte) :=
  match encodeValue message.Payload.Value with
  | Except.error e => Except.error e
  | Except.ok body =>
    let payloadBuf := putInt64 message.Payload.Proposal ++ body
    let payloadSize : Int := (payloadBuf.length : Int)
    let headerBuf := putInt64 message.Header.SenderID ++ putInt64 message.Header.MessageType
      ++ putInt64 payloadSize
    Except.ok (headerBuf ++ payloadBuf)

/-- `binary.Read(buf, binary.BigEndian, &x)` for an `int64` on a `bytes.Reader`
whose unread part is `r`: fails (EOF / unexpected EOF) when fewer than eight
bytes are left, otherwise yields the value and the new unread part. -/
def readInt64 (r : List Byte) : Option (Int × List Byte) :=
  if r.length < 8 then none else some (toInt64 (beUint (r.take 8)), r.drop 8)

/-- `binary.Read` for a `float64`: the same eight bytes, kept as a bit pattern. -/
def readFloat64 (r : List Byte) : Option (Nat × List Byte) :=
  if r.length < 8 then none else some (beUint (r.take 8), r.drop 8)

/-- `(*bytes.Reader).Read(b)` with `len(b) = n` and `b` zero-filled: at the end
of the data it returns `io.EOF` (also for `n = 0`); otherwise it copies
`min n (len r)` bytes into the front of `b` and reports no error. -/
def readerRead (r : List Byte) (n : Nat) : Option (List Byte) :=
  if r.length = 0 then none
  else some (r.take n ++ List.replicate (n - min n r.length) (0 : Byte))

/-- The largest length `make([]byte, n)` accepts on a 64-bit platform (the
`maxAlloc` of the Go runtime, 2^48 bytes). -/
def maxAlloc : Int := 2 ^ 48

/-- Whether `make([]byte, n)` panics ("makeslice: len out of range"): for a
negative `n` and for `n` above `maxAlloc`.  Running out of memory below that
bound depends on the machine and is not modelled. -/
def makePanics (n : Int) : Bool := decide (n < 0 ∨ n > maxAlloc)

/-- `ConvertFromBinary`.  `make([]byte, strLen)` may panic, see `makePanics`. -/
def ConvertFromBinary (data : List Byte) : GoResult Message :=
  match readInt64 data with
  | none => GoResult.err CodecError.readSenderID
  | some (senderID, r1) =>
  match readInt64 r1 with
  | none => GoResult.err CodecError.readMessageType
  | some (messageType, r2) =>
  match readInt64 r2 with
  | none => GoResult.err CodecError.readPayloadSize
  | some (payloadSize, r3) =>
  let header : MessageHeader := ⟨senderID, messageType, payloadSize⟩
  if payloadSize > 0 then
    match readInt64 r3 with
    | none => GoResult.err CodecError.readProposal
    | some (proposal, r4) =>
    match readInt64 r4 with
    | none => GoResult.err CodecError.readValueType
    | some (valueType, r5) =>
    if valueType = NIL then GoResult.ok ⟨header, ⟨proposal, Value.nil⟩⟩
    else if valueType = INT64 then
      match readInt64 r5 with
      | none => GoResult.err CodecError.readInt64Value
      | some (int64Value, _) => GoResult.ok ⟨header, ⟨proposal, Value.int64 int64Value⟩⟩
    else if valueType = FLOAT64 then
      match readFloat64 r5 with
      | none => GoResult.err CodecError.readFloat64Value
      | some (floatValue, _) => GoResult.ok ⟨header, ⟨proposal, Value.float64 floatValue⟩⟩
    else if valueType = STRING then
      match readInt64 r5 with
      | none => GoResult.err CodecError.readStringLength
      | some (strLen, r6) =>
      if makePanics strLen then GoResult.panic
      else
        match readerRead r6 strLen.toNat with
        | none => GoResult.err CodecError.readStringValue
        | some strBytes => GoResult.ok ⟨header, ⟨proposal, Value.str strBytes⟩⟩
    else GoResult.err (CodecError.unsupportedTypeIdentifier valueType)
  else GoResult.ok ⟨header, ⟨0, Value.nil⟩⟩

/-- Go `==` on two `float64` bit patterns: a NaN equals nothing, the two zeros
are equal, every other pair is equal exactly when the bits are. -/
def float64Eq (a b : Nat) : Bool :=
  let isNaN := fun (x : Nat) => (x / 2 ^ 52) % 2 ^ 11 = 2047 ∧ x % 2 ^ 52 ≠ 0
  decide (¬ isNaN a ∧ ¬ isNaN b ∧ (a = b ∨ (a % 2 ^ 63 = 0 ∧ b % 2 ^ 63 = 0)))

/-- Go `==` on two `interface{}` values: same dynamic type and equal values. -/
def Value.goEq : Value → Value → Bool
  | Value.nil, Value.nil => true
  | Value.int64 a, Value.int64 b => decide (a = b)
  | Value.float64 a, Value.float64 b => float64Eq a b
  | Value.str a, Value.str b => decide (a = b)
  | Value.other a, Value.other b => decide (a = b)
  | _, _ => false

/-- Go `v != nil` for an `interface{}`. -/
def Value.isNil : Value → Bool
  | Value.nil => true
  | _ => false

/-! ## Outgoing messages (`communication/tcp.go`) -/

/-- The part of `TcpCommunicator` the engines use: the id set by `SetSelfId`. -/
structure TcpCommunicator where
  selfId : Int
deriving DecidableEq, Repr

/-- What a handler does besides changing state: a call of one of the
`Send…Message` methods (the message `sendPaxosMessage` builds and its target),
the `chose` line printed by the proposer, and the send on `sendProposalCh`.
An error returned by a send makes the caller panic; that path needs a failing
connection or a value of an unsupported type and is not part of the model. -/
inductive Effect where
  | send (targetId : Int) (message : Message)
  | chose (peerId : Int) (value : Value) (proposalNum : Int)
  | retry
deriving DecidableEq, Repr

/-- `sendPaxosMessage`: the message handed to `ConvertToBinary` and `sendMessage`. -/
def TcpCommunicator.sendPaxosMessage (c : TcpCommunicator) (targetId messageType proposalNumber : Int)
    (value : Value) : Effect :=
  Effect.send targetId ⟨⟨c.selfId, messageType, 0⟩, ⟨proposalNumber, value⟩⟩

def TcpCommunicator.SendPrepareMessage (c : TcpCommunicator) (targetId proposalNumber : Int)
    (value : Value) : Effect :=
  c.sendPaxosMessage targetId PREPARE proposalNumber value

def TcpCommunicator.SendAcceptMessage (c : TcpCommunicator) (targetId proposalNumber : Int)
    (value : Value) : Effect :=
  c.sendPaxosMessage targetId ACCEPT proposalNumber value

def TcpCommunicator.SendPromiseMessage (c : TcpCommunicator) (targetId acceptedProposal : Int)
    (acceptedValue : Value) : Effect :=
  c.sendPaxosMessage targetId PROMISE acceptedProposal acceptedValue

def TcpCommunicator.SendAcceptedMessage (c : TcpCommunicator) (targetId acceptedProposal : Int)
    (acceptedValue : Value) : Effect :=
  c.sendPaxosMessage targetId ACCEPTED acceptedProposal acceptedValue

/-! ## Acceptor state (`paxosImpl/stateManager.go`) -/

structure StateManager where
  minProposal : Int
  acceptedProposal : Int
  acceptedValue : Value
deriving DecidableEq, Repr

def NewStateManager : StateManager := ⟨0, 0, Value.nil⟩

/-- `UpdateState`: each argument is a pointer; `none` is the nil pointer. -/
def StateManager.UpdateState (s : StateManager) (minProposal acceptedProposal : Option Int)
    (acceptedValue : Option Value) : StateManager :=
  let s1 := match minProposal with
    | some n => { s with minProposal := n }
    | none => s
  let s2 := match acceptedProposal with
    | some n => { s1 with acceptedProposal := n }
    | none => s1
  match acceptedValue with
  | some v => { s2 with acceptedValue := v }
  | none => s2

def StateManager.GetMinProposal (s : StateManager) : Int := s.minProposal
def StateManager.GetAcceptedProposal (s : StateManager) : Int := s.acceptedProposal
def StateManager.GetAcceptedValue (s : StateManager) : Value := s.acceptedValue

/-! ## Acceptor engine (`paxosImpl/acceptor.go`) -/

structure Acceptor where
  id : Int
  tcpCommunicator : TcpCommunicator
deriving DecidableEq, Repr

/-- `handlePrepareMessage` on the shared state `s`. -/
def Acceptor.handlePrepareMessage (a : Acceptor) (s : StateManager) (message : Message) :
    StateManager × List Effect :=
  let s1 := if message.Payload.Proposal > s.GetMinProposal then
      s.UpdateState (some message.Payload.Proposal) none none
    else s
  (s1, [a.tcpCommunicator.SendPromiseMessage message.Header.SenderID
          s1.GetAcceptedProposal s1.GetAcceptedValue])

/-- `handleAcceptMessage` on the shared state `s`. -/
def Acceptor.handleAcceptMessage (a : Acceptor) (s : StateManager) (message : Message) :
    StateManager × List Effect :=
  let s1 := if message.Payload.Proposal ≥ s.GetMinProposal then
      s.UpdateState (some message.Payload.Proposal) (some message.Payload.Proposal)
        (some message.Payload.Value)
    else s
  let minProposal := s1.GetMinProposal
  (s1, [a.tcpCommunicator.SendAcceptedMessage message.Header.SenderID minProposal Value.nil])

/-- What `Acceptor.Listen` takes from its two channels. -/
inductive AcceptorInput where
  | prepare (message : Message)
  | accept (message : Message)
deriving DecidableEq, Repr

/-- One iteration of `Acceptor.Listen`. -/
def Acceptor.step (a : Acceptor) (s : StateManager) : AcceptorInput → StateManager × List Effect
  | AcceptorInput.prepare m => a.handlePrepareMessage s m
  | AcceptorInput.accept m => a.handleAcceptMessage s m

/-- The acceptor state after processing `inputs` in order, starting from `s`. -/
def Acceptor.run (a : Acceptor) (s : StateManager) (inputs : List AcceptorInput) : StateManager :=
  inputs.foldl (fun st i => (a.step st i).1) s

/-! ## Proposer engine (`paxosImpl/proposer.go`) -/

structure Proposer where
  id : Int
  proposalNumber : Int
  minProposalNumber : Int
  value : Value
  acceptedValue : Value
  quorum : List Int
  promiseResponses : Int
  acceptResponses : Int
  tcpCommunicator : TcpCommunicator
deriving DecidableEq, Repr

def NewProposer (id proposalNumber : Int) (value : Value) (quorum : List Int)
    (tcpCommunicator : TcpCommunicator) : Proposer :=
  { id := id, proposalNumber := proposalNumber, value := value, quorum := quorum,
    promiseResponses := 0, acceptResponses := 0, tcpCommunicator := tcpCommunicator,
    minProposalNumber := 0, acceptedValue := Value.nil }

/-- The `for _, acceptorID := range p.quorum` loop of `sendProposal` over the
remaining entries `q`: the proposer after the loop and the Prepare messages sent. -/
def Proposer.prepareLoop (p : Proposer) : List Int → Proposer × List Effect
  | [] => (p, [])
  | acceptorID :: q =>
    if acceptorID = p.id then
      Proposer.prepareLoop { p with promiseResponses := add64 p.promiseResponses 1 } q
    else
      let r := Proposer.prepareLoop p q
      (r.1, p.tcpCommunicator.SendPrepareMessage acceptorID p.proposalNumber p.value :: r.2)

/-- `sendProposal` (Phase A) on the shared acceptor state `s`. -/
def Proposer.sendProposal (p : Proposer) (s : StateManager) :
    Proposer × StateManager × List Effect :=
  let p1 := if p.minProposalNumber > p.proposalNumber then
      { p with proposalNumber := p.minProposalNumber }
    else p
  let p2 := if !p1.acceptedValue.isNil then
      { p1 with value := p1.acceptedValue, acceptedValue := Value.nil }
    else p1
  let p3 := { p2 with promiseResponses := 0 }
  let p4 := { p3 with proposalNumber := add64 p3.proposalNumber 1 }
  let s1 := s.UpdateState (some p4.proposalNumber) none none
  let r := p4.prepareLoop p4.quorum
  (r.1, s1, r.2)

/-- The `for _, acceptorID := range p.quorum` loop of `handlePromiseMessage`. -/
def Proposer.acceptLoop (p : Proposer) : List Int → Proposer × List Effect
  | [] => (p, [])
  | acceptorID :: q =>
    if acceptorID = p.id then
      Proposer.acceptLoop { p with acceptResponses := add64 p.acceptResponses 1 } q
    else
      let r := Proposer.acceptLoop p q
      (r.1, p.tcpCommunicator.SendAcceptMessage acceptorID p.proposalNumber p.value :: r.2)

/-- `handlePromiseMessage` (Phase B) on the shared acceptor state `s`. -/
def Proposer.handlePromiseMessage (p : Proposer) (s : StateManager) (message : Message) :
    Proposer × StateManager × List Effect :=
  let p1 := { p with promiseResponses := add64 p.promiseResponses 1 }
  let p2 := if message.Payload.Proposal > p1.minProposalNumber then
      { p1 with minProposalNumber := message.Payload.Proposal }
    else p1
  let p3 := if !message.Payload.Value.isNil then
      { p2 with acceptedValue := message.Payload.Value }
    else p2
  let p4 := { p3 with acceptResponses := 0 }
  if p4.promiseResponses = (p4.quorum.length : Int) then
    let p5 := if !p4.acceptedValue.isNil then { p4 with value := p4.acceptedValue } else p4
    let s1 := s.UpdateState (some p5.proposalNumber) (some p5.proposalNumber) (some p5.value)
    let r := p5.acceptLoop p5.quorum
    (r.1, s1, r.2)
  else (p4, s, [])

/-- `handleAcceptedMessage` (Phase C); the shared acceptor state `s` is only read. -/
def Proposer.handleAcceptedMessage (p : Proposer) (s : StateManager) (message : Message) :
    Proposer × List Effect :=
  let p1 := { p with acceptResponses := add64 p.acceptResponses 1 }
  let p2 := if message.Payload.Proposal > p1.minProposalNumber then
      { p1 with minProposalNumber := message.Payload.Proposal }
    else p1
  let p3 := if !(message.Payload.Value.goEq p2.acceptedValue) then
      { p2 with acceptedValue := message.Payload.Value }
    else p2
  if p3.acceptResponses = (p3.quorum.length : Int) then
    if p3.minProposalNumber ≤ p3.proposalNumber then
      (p3, [Effect.chose p3.id s.GetAcceptedValue message.Payload.Proposal])
    else
      (p3, [Effect.retry])
  else (p3, [])

/-- The values whose encoding `ConvertFromBinary` reads back: Nil, any `int64`,
any `float64` bit pattern and any non-empty string that `make` can hold. -/
def Value.roundTrips : Value → Prop
  | Value.nil => True
  | Value.int64 v => isInt64 v
  | Value.float64 bits => bits < 2 ^ 64
  | Value.str s => s ≠ [] ∧ (s.length : Int) ≤ maxAlloc
  | Value.other _ => False

/-! ## Dispatch loop (`main.go`) -/

/-- The four channels the dispatch loop of `main` forwards to. -/
inductive Queue where
  | prepareMessagesCh
  | promiseMessagesCh
  | acceptMessagesCh
  | acceptedMessagesCh
deriving DecidableEq, Repr

/-- The `switch message.Header.MessageType` of the dispatch loop: the channel the
message is put on, `none` when no case matches. -/
def dispatch (message : Message) : Option Queue :=
  if message.Header.MessageType = PREPARE then some Queue.prepareMessagesCh
  else if message.Header.MessageType = PROMISE then some Queue.promiseMessagesCh
  else if message.Header.MessageType = ACCEPT then some Queue.acceptMessagesCh
  else if message.Header.MessageType = ACCEPTED then some Queue.acceptedMessagesCh
  else none

/-! ## The shared acceptor state of one process -/

/-- The operations that write the `StateManager` of a process hosting an
acceptor and a proposer: the two acceptor handlers, `sendProposal` and
`handlePromiseMessage`. -/
inductive SharedOp where
  | acceptorPrepare (message : Message)
  | acceptorAccept (message : Message)
  | proposerSend
  | proposerPromise (message : Message)
deriving DecidableEq, Repr

/-- One write operation on the pair (shared acceptor state, proposer). -/
def sharedStep (a : Acceptor) (st : StateManager × Proposer) : SharedOp → StateManager × Proposer
  | SharedOp.acceptorPrepare m => ((a.handlePrepareMessage st.1 m).1, st.2)
  | SharedOp.acceptorAccept m => ((a.handleAcceptMessage st.1 m).1, st.2)
  | SharedOp.proposerSend => ((st.2.sendProposal st.1).2.1, (st.2.sendProposal st.1).1)
  | SharedOp.proposerPromise m =>
    ((st.2.handlePromiseMessage st.1 m).2.1, (st.2.handlePromiseMessage st.1 m).1)

/-- The pair reached from `st` by the operations `ops`, in order. -/
def sharedRun (a : Acceptor) (st : StateManager × Proposer) (ops : List SharedOp) :
    StateManager × Proposer :=
  ops.foldl (sharedStep a) st

/-- The invariant the data model states for the acceptor state. -/
def StateManager.acceptedLeMin (s : StateManager) : Prop := s.acceptedProposal ≤ s.minProposal

instance (s : StateManager) : Decidable s.acceptedLeMin := by
  unfold StateManager.acceptedLeMin; infer_instance

/-! ## A set of processes and the messages between them

Each process is what `main` builds for one host: the acceptor, at most one
proposer, the shared `StateManager`, and the start signal `main` sends once.
A run is a sequence of handler executions, one at a time: a proposer taking its
start signal, or a process taking the oldest undelivered message of one of its
inbound connections.  Every such sequence is a possible execution of the
program (the handlers of a process may also overlap, which is not modelled). -/

structure Process where
  acceptor : Acceptor
  proposer : Option Proposer
  stateManager : StateManager
  startSignal : Bool
deriving DecidableEq, Repr

/-- The process `main` builds on host `id`; `proposer` holds the proposal number
of its `proposer<N>` role, the value of `-v` and the quorum from `ReadHostfile`. -/
def Process.new (id : Int) (proposer : Option (Int × Value × List Int)) : Process :=
  { acceptor := ⟨id, ⟨id⟩⟩,
    proposer := proposer.map (fun c => NewProposer id c.1 c.2.1 c.2.2 ⟨id⟩),
    stateManager := NewStateManager,
    startSignal := true }

/-- The process takes `message` from the inbound channel: the dispatch loop
forwards it and the handler runs.  A message of unknown kind is dropped.  A
Promise or Accepted on a host without proposer is never taken from its channel
(`none`). -/
def Process.receive (pr : Process) (message : Message) : Option (Process × List Effect) :=
  match dispatch message with
  | none => some (pr, [])
  | some Queue.prepareMessagesCh =>
    let r := pr.acceptor.handlePrepareMessage pr.stateManager message
    some ({ pr with stateManager := r.1 }, r.2)
  | some Queue.acceptMessagesCh =>
    let r := pr.acceptor.handleAcceptMessage pr.stateManager message
    some ({ pr with stateManager := r.1 }, r.2)
  | some Queue.promiseMessagesCh =>
    match pr.proposer with
    | none => none
    | some p =>
      let r := p.handlePromiseMessage pr.stateManager message
      some ({ pr with proposer := some r.1, stateManager := r.2.1 }, r.2.2)
  | some Queue.acceptedMessagesCh =>
    match pr.proposer with
    | none => none
    | some p =>
      let r := p.handleAcceptedMessage pr.stateManager message
      some ({ pr with proposer := some r.1 }, r.2)

/-- The proposer of the process takes the start signal and runs `sendProposal`. -/
def Process.start (pr : Process) : Option (Process × List Effect) :=
  if pr.startSignal then
    match pr.proposer with
    | none => none
    | some p =>
      let r := p.sendProposal pr.stateManager
      some ({ pr with proposer := some r.1, stateManager := r.2.1, startSignal := false }, r.2.2)
  else none

/-- The processes, the messages written to a connection and not yet read (oldest
first, each with its target; the sender is in the header), and the `chose`
events printed so far (peer and value). -/
structure World where
  processes : List Process
  network : List (Int × Message)
  chosen : List (Int × Value)
deriving DecidableEq, Repr

inductive Action where
  | start (pid : Int)
  | deliver (src dst : Int)
deriving DecidableEq, Repr

/-- The sends among `effects`, as network entries. -/
def sentBy : List Effect → List (Int × Message)
  | [] => []
  | Effect.send t m :: es => (t, m) :: sentBy es
  | _ :: es => sentBy es

/-- The `chose` events among `effects`. -/
def chosenBy : List Effect → List (Int × Value)
  | [] => []
  | Effect.chose peer v _ :: es => (peer, v) :: chosenBy es
  | _ :: es => chosenBy es

/-- Removes the oldest message from `src` to `dst`, if there is one. -/
def takeMessage (src dst : Int) : List (Int × Message) → Option (Message × List (Int × Message))
  | [] => none
  | (t, m) :: rest =>
    if t = dst ∧ m.Header.SenderID = src then some (m, rest)
    else (takeMessage src dst rest).map (fun r => (r.1, (t, m) :: r.2))

/-- Applies `f` to the process with id `pid`. -/
def updateProcess (pid : Int) (f : Process → Option (Process × List Effect)) :
    List Process → Option (List Process × List Effect)
  | [] => none
  | pr :: rest =>
    if pr.acceptor.id = pid then (f pr).map (fun r => (r.1 :: rest, r.2))
    else (updateProcess pid f rest).map (fun r => (pr :: r.1, r.2))

/-- One handler execution.  `none` when the action is not possible, and when
the handler signals a retry (the send on `sendProposalCh` has no receiver
while the only proposer of the process is inside its handler; such runs are not
followed further). -/
def World.step (w : World) : Action → Option World
  | Action.start pid =>
    match updateProcess pid Process.start w.processes with
    | none => none
    | some (ps, effects) =>
      if Effect.retry ∈ effects then none
      else some ⟨ps, w.network ++ sentBy effects, w.chosen ++ chosenBy effects⟩
  | Action.deliver src dst =>
    match takeMessage src dst w.network with
    | none => none
    | some (m, net) =>
      match updateProcess dst (fun pr => pr.receive m) w.processes with
      | none => none
      | some (ps, effects) =>
        if Effect.retry ∈ effects then none
        else some ⟨ps, net ++ sentBy effects, w.chosen ++ chosenBy effects⟩

/-- The world after the actions `schedule`, in order. -/
def World.run (w : World) : List Action → Option World
  | [] => some w
  | act :: rest =>
    match w.step act with
    | none => none
    | some w1 => World.run w1 rest

/-- Agreement, for the runs from `w0` in which every sent message has been
delivered: any two `chose` events of different proposers carry the same value. -/
def Agreement (w0 : World) : Prop :=
  ∀ (schedule : List Action) (w : World), World.run w0 schedule = some w → w.network = [] →
    ∀ a ∈ w.chosen, ∀ b ∈ w.chosen, a.1 ≠ b.1 → a.2 = b.2

/-- Two hosts, each `proposer1,acceptor1`; values "a" and "b".  `ReadHostfile`
gives both proposers the quorum of proposer number 1, which holds both hosts. -/
def racingWorld : World :=
  { processes := [Process.new 1 (some (1, Value.str [97], [2, 1])),
                  Process.new 2 (some (1, Value.str [98], [2, 1]))],
    network := [],
    chosen := [] }

/-- Both proposers start, then the hosts take their messages in turn. -/
def racingSchedule : List Action :=
  [Action.start 1, Action.start 2,
   Action.deliver 2 1, Action.deliver 1 2, Action.deliver 2 1, Action.deliver 1 2,
   Action.deliver 2 1, Action.deliver 1 2, Action.deliver 2 1, Action.deliver 1 2]

/-! ## Reading a frame from a connection (`communication/converter.go`) -/

/-- A connection as the reader sees it: the byte chunks that successive
`conn.Read` calls can deliver, after which `Read` reports an error (the peer
closed the stream).  A `Read` into a buffer shorter than the next chunk takes
the front of the chunk and leaves the rest. -/
abbrev Conn := List (List Byte)

/-- `readFully(conn, buffer)` with `len(buffer) = n`: the bytes read and the
connection afterwards, `none` when a `Read` reports an error first. -/
def readFully : Conn → Nat → Option (List Byte × Conn)
  | conn, 0 => some ([], conn)
  | [], _ + 1 => none
  | chunk :: rest, n + 1 =>
    if chunk.length ≤ n + 1 then
      match readFully rest (n + 1 - chunk.length) with
      | none => none
      | some (bs, conn1) => some (chunk ++ bs, conn1)
    else some (chunk.take (n + 1), chunk.drop (n + 1) :: rest)

/-- `readAndParseMessage`: the outcome and the connection afterwards.  The
error of `ConvertFromBinary` is passed on under its own name (the source wraps
its text).  `make([]byte, msgHeader.PayloadSize)` may panic, see `makePanics`. -/
def readAndParseMessage (conn : Conn) : GoResult Message × Conn :=
  match readFully conn 24 with
  | none => (GoResult.err CodecError.readHeader, [])
  | some (header, conn1) =>
  match readInt64 header with
  | none => (GoResult.err CodecError.readSenderID, conn1)
  | some (_, h1) =>
  match readInt64 h1 with
  | none => (GoResult.err CodecError.readMessageType, conn1)
  | some (_, h2) =>
  match readInt64 h2 with
  | none => (GoResult.err CodecError.readPayloadSize, conn1)
  | some (payloadSize, _) =>
  if makePanics payloadSize then (GoResult.panic, conn1)
  else
    match (if payloadSize > 0 then readFully conn1 payloadSize.toNat else some ([], conn1)) with
    | none => (GoResult.err CodecError.readPayload, [])
    | some (payload, conn2) => (ConvertFromBinary (header ++ payload), conn2)

/-! ## The dispatch loop over a sequence of messages (`main.go`)

The four channels are created by `make(chan communication.Message)` (lines
22-25) and have capacity 0: a send `ch <- message` of the dispatch loop
completes when a goroutine takes the message from `ch`, and blocks until then.
`Acceptor.Listen` takes from `prepareMessagesCh` and `acceptMessagesCh`;
`Proposer.Listen` takes from `promiseMessagesCh` and `acceptedMessagesCh`, and
only on a host that has a proposer whose goroutine comes back to its `select`. -/

/-- The messages taken from each of the four channels, oldest first. -/
structure Queues where
  prepareMessagesCh : List Message
  promiseMessagesCh : List Message
  acceptMessagesCh : List Message
  acceptedMessagesCh : List Message
deriving DecidableEq, Repr

def Queues.empty : Queues := ⟨[], [], [], []⟩

/-- The queues after `message` was taken from the channel `ch`. -/
def Queues.put (q : Queues) (ch : Queue) (message : Message) : Queues :=
  match ch with
  | Queue.prepareMessagesCh => { q with prepareMessagesCh := q.prepareMessagesCh ++ [message] }
  | Queue.promiseMessagesCh => { q with promiseMessagesCh := q.promiseMessagesCh ++ [message] }
  | Queue.acceptMessagesCh => { q with acceptMessagesCh := q.acceptMessagesCh ++ [message] }
  | Queue.acceptedMessagesCh =>
    { q with acceptedMessagesCh := q.acceptedMessagesCh ++ [message] }

/-- The dispatch loop of one host together with the goroutines behind the
channels: the process (acceptor, optional proposer, shared state), whether the
proposer goroutine is at `p.sendProposalCh <- true` of `handleAcceptedMessage`
(the process has no other proposer to take the signal, so the goroutine does
not come back to its `select`, see `SignalState`), the messages taken from the
channels so far, and what the handlers did. -/
structure DispatchState where
  process : Process
  proposerAtRetrySend : Bool
  taken : Queues
  effects : List Effect
deriving DecidableEq, Repr

/-- One iteration of `for message := range incomingMessagesCh` (lines 56-74).
When no case of the `switch` matches, nothing is sent and the loop goes on.
Otherwise the message is sent on the channel of its kind: the send completes,
and the handler of the receiving goroutine runs, when that goroutine exists and
is not stuck; `none` when the send never completes, so that the iteration never
ends (a Promise or Accepted on a host without proposer, or with the proposer at
the send of the retry signal). -/
def DispatchState.dispatchOne (st : DispatchState) (message : Message) : Option DispatchState :=
  match dispatch message with
  | none => some st
  | some ch =>
    if (ch = Queue.promiseMessagesCh ∨ ch = Queue.acceptedMessagesCh) ∧
        st.proposerAtRetrySend = true then none
    else
      match st.process.receive message with
      | none => none
      | some (pr, effects) =>
        some { process := pr,
               proposerAtRetrySend := st.proposerAtRetrySend || decide (Effect.retry ∈ effects),
               taken := st.taken.put ch message,
               effects := st.effects ++ effects }

/-- The dispatch loop over the inbound messages `messages`, in order: the state
reached and the messages the loop did not get past (empty when it handled
all of them; otherwise the first of them is the one whose send blocks). -/
def dispatchLoop (st : DispatchState) : List Message → DispatchState × List Message
  | [] => (st, [])
  | message :: rest =>
    match st.dispatchOne message with
    | none => (st, message :: rest)
    | some st1 => dispatchLoop st1 rest

/-! ## Frame sizes as the specification states them -/

/-- The payload size the specification gives for each value variant: 16 for
Nil, 24 for Int64 and Float64, 24 + N for a String of N bytes. -/
def specPayloadSize : Value → Int
  | Value.nil => 16
  | Value.int64 _ => 24
  | Value.float64 _ => 24
  | Value.str s => 24 + (s.length : Int)
  | Value.other _ => 0

/-- Whether a value is one of the four variants the codec writes. -/
def Value.isVariant : Value → Bool
  | Value.other _ => false
  | _ => true

/-! ## The hostfile (`util/config.go`) -/

/-- The loop of `strings.Split(s, sep)` for a non-empty `sep`: `cur` holds the
current piece in reverse, `skip` the bytes of a matched separator still to pass. -/
def splitLoop (sep : List Char) : List Char → List Char → Nat → List (List Char)
  | [], cur, _ => [cur.reverse]
  | _ :: cs, cur, skip + 1 => splitLoop sep cs cur skip
  | c :: cs, cur, 0 =>
    if sep.isPrefixOf (c :: cs) then cur.reverse :: splitLoop sep cs [] (sep.length - 1)
    else splitLoop sep cs (c :: cur) 0

/-- `strings.Split(s, sep)` for a non-empty `sep`: the pieces of `s` between
the occurrences of `sep`, found left to right without overlap. -/
def stringsSplit (s sep : List Char) : List (List Char) := splitLoop sep s [] 0

/-- The value of a string of decimal digits, `none` when a byte is not a digit. -/
def parseDigits : List Char → Nat → Option Nat
  | [], acc => some acc
  | c :: cs, acc =>
    if '0' ≤ c ∧ c ≤ '9' then parseDigits cs (acc * 10 + (c.toNat - '0'.toNat)) else none

/-- `strconv.ParseInt(s, 10, 64)`: an optional sign and at least one decimal
digit, within the `int64` range; `none` for the error return. -/
def ParseInt (s : List Char) : Option Int :=
  match s with
  | [] => none
  | c :: cs =>
    let neg := c = '-'
    let ds := if c = '+' ∨ c = '-' then cs else c :: cs
    if ds = [] then none
    else
      match parseDigits ds 0 with
      | none => none
      | some un =>
        if neg then (if un > 2 ^ 63 then none else some (-(un : Int)))
        else (if un ≥ 2 ^ 63 then none else some (un : Int))

def ProposerRole : List Char := "proposer".toList
def AcceptorRole : List Char := "acceptor".toList
def LearnerRole : List Char := "learner".toList

structure HostInfo where
  Hostname : List Char
  Proposer : List Int
  Acceptor : List Int
  Learner : List Int
deriving DecidableEq, Repr

/-- The body of `for _, role := range roles` (lines 68-108): the host record
after the role, `none` where the source calls `log.Fatalf`. -/
def parseRole (hostInfo : HostInfo) (role : List Char) : Option HostInfo :=
  match stringsSplit role ProposerRole with
  | [_, n] =>
    match ParseInt n with
    | none => none
    | some num =>
      if num ≠ 0 then some { hostInfo with Proposer := hostInfo.Proposer ++ [num] }
      else some hostInfo
  | _ =>
  match stringsSplit role AcceptorRole with
  | [_, n] =>
    match ParseInt n with
    | none => none
    | some num =>
      if num ≠ 0 then some { hostInfo with Acceptor := hostInfo.Acceptor ++ [num] }
      else some hostInfo
  | _ =>
  match stringsSplit role LearnerRole with
  | [_, n] =>
    match ParseInt n with
    | none => none
    | some num =>
      if num ≠ 0 then some { hostInfo with Learner := hostInfo.Learner ++ [num] }
      else some hostInfo
  | _ => none

/-- The roles of one line, in order. -/
def parseRoles : HostInfo → List (List Char) → Option HostInfo
  | hostInfo, [] => some hostInfo
  | hostInfo, role :: roles =>
    match parseRole hostInfo role with
    | none => none
    | some h1 => parseRoles h1 roles

/-- One line of the hostfile (lines 51-110). -/
def parseLine (line : List Char) : Option HostInfo :=
  match stringsSplit line [':'] with
  | [hostname, rolesStr] =>
    parseRoles ⟨hostname, [], [], []⟩ (stringsSplit rolesStr [','])
  | _ => none

/-- The scanner loop: `hostRoles` as the list of host records in line order;
the record of line `i` (from 1) is `hostRoles[i]` of the source. -/
def parseLines : List (List Char) → Option (List HostInfo)
  | [] => some []
  | line :: lines =>
    match parseLine line with
    | none => none
    | some hostInfo =>
      match parseLines lines with
      | none => none
      | some rest => some (hostInfo :: rest)

/-- The keys of `hostRoles` for a file of `count` lines: `1 .. count`. -/
def hostKeys (count : Nat) : List Int := (List.range count).map (fun (i : Nat) => (i : Int) + 1)

/-- The lookup `hostRoles[id]` in the list of host records. -/
def lookupHost (hostRoles : List HostInfo) (id : Int) : Option HostInfo :=
  if id ≥ 1 then hostRoles.get? (id.toNat - 1) else none

/-- The orders in which the `range` loops over the map `hostRoles` visit its
keys: Go leaves them unspecified.  `outer` is the order of the loop over `id`,
`inner id n` the order of the loop over `acceptorID` for the `n`-th proposer
entry of host `id`. -/
structure RangeOrder where
  outer : List Int
  inner : Int → Nat → List Int

/-- Every loop visits every key `1 .. count` exactly once. -/
def RangeOrder.valid (ord : RangeOrder) (count : Nat) : Prop :=
  ord.outer.Perm (hostKeys count) ∧ ∀ id n, (ord.inner id n).Perm (hostKeys count)

/-- The order of the lines, for every loop. -/
def RangeOrder.lineOrder (count : Nat) : RangeOrder :=
  ⟨hostKeys count, fun _ _ => hostKeys count⟩

/-- The test of line 118 for host `id` and the key `acceptorID`: the key is in
the map, differs from `id`, and its record has a non-empty acceptor list. -/
def quorumSelects (hostRoles : List HostInfo) (id acceptorID : Int) : Bool :=
  match lookupHost hostRoles acceptorID with
  | none => false
  | some acceptorInfo => decide (id ≠ acceptorID ∧ acceptorInfo.Acceptor.length > 0)

/-- The loop `for acceptorID, acceptorInfo := range hostRoles` (lines 117-121)
over the keys `keys`, for host `id` and its proposer entry `proposerID`. -/
def quorumInner (hostRoles : List HostInfo) (id proposerID : Int) :
    (Int → List Int) → List Int → (Int → List Int)
  | quorumMap, [] => quorumMap
  | quorumMap, acceptorID :: keys =>
    match lookupHost hostRoles acceptorID with
    | none => quorumInner hostRoles id proposerID quorumMap keys
    | some acceptorInfo =>
      if id ≠ acceptorID ∧ acceptorInfo.Acceptor.length > 0 then
        quorumInner hostRoles id proposerID
          (fun k => if k = proposerID then quorumMap proposerID ++ [acceptorID] else quorumMap k)
          keys
      else quorumInner hostRoles id proposerID quorumMap keys

/-- The loop `for _, proposerID := range hostInfo.Proposer` (line 116) for host
`id`; `n` counts the entries already done. -/
def quorumProposers (hostRoles : List HostInfo) (ord : RangeOrder) (id : Int) :
    (Int → List Int) → Nat → List Int → (Int → List Int)
  | quorumMap, _, [] => quorumMap
  | quorumMap, n, proposerID :: rest =>
    quorumProposers hostRoles ord id
      (quorumInner hostRoles id proposerID quorumMap (ord.inner id n)) (n + 1) rest

/-- The loop `for id, hostInfo := range hostRoles` (line 115) over the keys `keys`. -/
def quorumOuter (hostRoles : List HostInfo) (ord : RangeOrder) :
    (Int → List Int) → List Int → (Int → List Int)
  | quorumMap, [] => quorumMap
  | quorumMap, id :: keys =>
    match lookupHost hostRoles id with
    | none => quorumOuter hostRoles ord quorumMap keys
    | some hostInfo =>
      quorumOuter hostRoles ord (quorumProposers hostRoles ord id quorumMap 0 hostInfo.Proposer) keys

/-- `ReadHostfile` on the lines of the file: the host records and the quorum
map (a missing key reads as the empty slice, as in Go).  `none` where the source
calls `log.Fatalf`. -/
def ReadHostfile (lines : List (List Char)) (ord : RangeOrder) :
    Option (List HostInfo × (Int → List Int)) :=
  match parseLines lines with
  | none => none
  | some hostRoles => some (hostRoles, quorumOuter hostRoles ord (fun _ => []) ord.outer)

/-- The process `main` builds on host `id` from the result of `ReadHostfile` and
the value of `-v` (lines 28-44).  A host with several proposer roles runs
several proposers on the same channels; that is not modelled (`none`). -/
def mainProcess (hostRoles : List HostInfo) (quorumMap : Int → List Int) (id : Int)
    (proposerValue : List Byte) : Option Process :=
  match lookupHost hostRoles id with
  | none => none
  | some info =>
    match info.Proposer with
    | [] => some (Process.new id none)
    | [val] => some (Process.new id (some (val, Value.str proposerValue, quorumMap val)))
    | _ => none

/-- The processes `main` builds on the hosts `ids`; host `id` reads the hostfile
with the range orders `ord id` and is started with the value `proposerValue id`. -/
def mainProcesses (lines : List (List Char)) (ord : Int → RangeOrder)
    (proposerValue : Int → List Byte) : List Int → Option (List Process)
  | [] => some []
  | id :: ids =>
    match ReadHostfile lines (ord id) with
    | none => none
    | some r =>
      match mainProcess r.1 r.2 id (proposerValue id) with
      | none => none
      | some pr =>
        match mainProcesses lines ord proposerValue ids with
        | none => none
        | some ps => some (pr :: ps)

/-- The set of processes started from one hostfile, one per line, before any
message is sent. -/
def mainWorld (lines : List (List Char)) (ord : Int → RangeOrder)
    (proposerValue : Int → List Byte) : Option World :=
  (mainProcesses lines ord proposerValue (hostKeys lines.length)).map
    (fun ps => ⟨ps, [], []⟩)

/-- The hostfile of the scenario "single proposer, two acceptors". -/
def scenarioHostfile : List (List Char) :=
  ["hostA:proposer1,acceptor1".toList, "hostB:acceptor1".toList, "hostC:acceptor1".toList]

/-- The bytes of "foo". -/
def foo : List Byte := [102, 111, 111]

/-- The three processes of the scenario, hostA with a proposer of quorum `quorum`. -/
def scenarioWorld (quorum : List Int) : World :=
  { processes := [Process.new 1 (some (1, Value.str foo, quorum)),
                  Process.new 2 none, Process.new 3 none],
    network := [],
    chosen := [] }

/-- The run of the scenario: hostA starts; `x` then `y` take its Prepare; hostA
takes their Promises; `x` then `y` take its Accept; hostA takes their Accepteds. -/
def scenarioSchedule (x y : Int) : List Action :=
  [Action.start 1,
   Action.deliver 1 x, Action.deliver 1 y, Action.deliver x 1, Action.deliver y 1,
   Action.deliver 1 x, Action.deliver 1 y, Action.deliver x 1, Action.deliver y 1]

/-- The message `sendPaxosMessage` builds on host `sender`. -/
def paxosMessage (sender kind proposal : Int) (value : Value) : Message :=
  ⟨⟨sender, kind, 0⟩, ⟨proposal, value⟩⟩

/-- The host records `ReadHostfile` builds for `scenarioHostfile`. -/
def scenarioHostRoles : List HostInfo :=
  [⟨"hostA".toList, [1], [1], []⟩, ⟨"hostB".toList, [], [1], []⟩, ⟨"hostC".toList, [], [1], []⟩]

/-- A hostfile in which two lines declare a proposer with the same number. -/
def sharedNumberHostfile : List (List Char) :=
  ["hostA:proposer1,acceptor1".toList, "hostB:proposer1,acceptor1".toList]

/-! ## Phase C without the value check -/

/-- `handleAcceptedMessage` with the statement
`if message.Payload.Value != p.acceptedValue { p.acceptedValue = message.Payload.Value }`
(lines 133-135) removed, as the specification says it may be. -/
def Proposer.handleAcceptedMessageNoCheck (p : Proposer) (s : StateManager) (message : Message) :
    Proposer × List Effect :=
  let p1 := { p with acceptResponses := add64 p.acceptResponses 1 }
  let p2 := if message.Payload.Proposal > p1.minProposalNumber then
      { p1 with minProposalNumber := message.Payload.Proposal }
    else p1
  if p2.acceptResponses = (p2.quorum.length : Int) then
    if p2.minProposalNumber ≤ p2.proposalNumber then
      (p2, [Effect.chose p2.id s.GetAcceptedValue message.Payload.Proposal])
    else
      (p2, [Effect.retry])
  else (p2, [])

/-! ## The reader loop of a connection (`communication/tcp.go`) -/

/-- The loop of the reader goroutine in `Listen` (lines 97-106), at most `k`
iterations: the outcomes of the calls of `readAndParseMessage`, in order, and
the connection afterwards.  The loop ends with the first call that does not
return a message. -/
def readCalls : Nat → Conn → List (GoResult Message) × Conn
  | 0, conn => ([], conn)
  | k + 1, conn =>
    match readAndParseMessage conn with
    | (GoResult.ok fullMessage, conn1) =>
      (GoResult.ok fullMessage :: (readCalls k conn1).1, (readCalls k conn1).2)
    | (outcome, conn1) => ([outcome], conn1)

/-- The bytes of the frames of `messages`, one after the other; `none` when
`ConvertToBinary` fails on one of them. -/
def encodeFrames : List Message → Option (List Byte)
  | [] => some []
  | m :: ms =>
    match ConvertToBinary m with
    | Except.error _ => none
    | Except.ok frame =>
      match encodeFrames ms with
      | none => none
      | some rest => some (frame ++ rest)

/-- The message `m` with `PayloadSize` set to the payload byte count. -/
def Message.withPayloadSize (m : Message) : Message :=
  ⟨⟨m.Header.SenderID, m.Header.MessageType, specPayloadSize m.Payload.Value⟩, m.Payload⟩

/-- The messages a frame carries back unchanged: header fields and proposal in
the `int64` range, a value that round-trips, a payload `make` can hold. -/
def Message.framable (m : Message) : Prop :=
  isInt64 m.Header.SenderID ∧ isInt64 m.Header.MessageType ∧ isInt64 m.Payload.Proposal ∧
    m.Payload.Value.roundTrips ∧ specPayloadSize m.Payload.Value ≤ maxAlloc

/-! ## The retry signal on `sendProposalCh`

`main` creates `sendProposalCh := make(chan bool)` (line 20) and hands it to
every proposer of the process.  Three places use it: the goroutine of `main`
that sends the start signal (line 53), the `select` of `Proposer.Listen` that
receives from it (line 82), and `handleAcceptedMessage`, which sends the retry
signal on it (line 142) while it runs inside `Listen` and holds `p.mu`. -/

/-- The capacity of `sendProposalCh`: `make(chan bool)` is unbuffered. -/
def sendProposalChCapacity : Nat := 0

/-- Where the goroutine of a proposer is: waiting in the `select` of `Listen`,
or inside `handleAcceptedMessage` at the send `p.sendProposalCh <- true`. -/
inductive LoopState where
  | atSelect
  | sendingRetry
deriving DecidableEq, Repr

/-- The channel and the goroutines that use it: the capacity and the number of
buffered signals, whether the goroutine of `main` is still at its send of the
start signal, and the place of every proposer goroutine of the process. -/
structure SignalState where
  capacity : Nat
  buffered : Nat
  startSender : Bool
  loops : List LoopState
deriving DecidableEq, Repr

/-- The places after the proposer at index `i` moves to `st`. -/
def setLoop (loops : List LoopState) (i : Nat) (st : LoopState) : List LoopState :=
  loops.set i st

/-- The indices of the proposers that are at place `st`. -/
def loopsAt (loops : List LoopState) (st : LoopState) : List Nat :=
  (List.range loops.length).filter (fun i => loops.get? i = some st)

/-- The steps of Go's channel semantics that complete a send or a receive on
`sendProposalCh`:
* a sender puts its signal into a free buffer slot and goes on;
* a proposer at the `select` takes a buffered signal (and runs `sendProposal`);
* a proposer at the `select` takes the signal directly from a blocked sender,
  the goroutine of `main` or another proposer, which then goes on;
and the step that brings a proposer to the send: a proposer at the `select`
takes an Accepted message that preempts it.  A proposer at its own send is not
at a `select`.  No other goroutine of the process uses the channel. -/
def SignalState.next (s : SignalState) : List SignalState :=
  (if s.startSender ∧ s.buffered < s.capacity then
      [{ s with buffered := s.buffered + 1, startSender := false }] else []) ++
  (if s.buffered < s.capacity then
      (loopsAt s.loops LoopState.sendingRetry).map (fun j =>
        { s with buffered := s.buffered + 1, loops := setLoop s.loops j LoopState.atSelect })
    else []) ++
  (if s.buffered > 0 ∧ loopsAt s.loops LoopState.atSelect ≠ [] then
      [{ s with buffered := s.buffered - 1 }] else []) ++
  (if s.startSender ∧ loopsAt s.loops LoopState.atSelect ≠ [] then
      [{ s with startSender := false }] else []) ++
  (if loopsAt s.loops LoopState.atSelect ≠ [] then
      (loopsAt s.loops LoopState.sendingRetry).map (fun j =>
        { s with loops := setLoop s.loops j LoopState.atSelect })
    else []) ++
  (loopsAt s.loops LoopState.atSelect).map (fun i =>
    { s with loops := setLoop s.loops i LoopState.sendingRetry })

/-- The state in which the only proposer of a process has been preempted in
Phase C and is at the send of the retry signal; the start signal was taken
before. -/
def preemptedSingleProposer : SignalState :=
  { capacity := sendProposalChCapacity, buffered := 0, startSender := false,
    loops := [LoopState.sendingRetry] }

/-- The states reachable from `s` in at most `n` steps. -/
def SignalState.reach : Nat → SignalState → List SignalState
  | 0, s => [s]
  | n + 1, s => s :: (s.next.map (SignalState.reach n)).flatten

/-! ## Codec lemmas -/

theorem putInt64_length (x : Int) : (putInt64 x).length = 8 := rfl

theorem beUint_putUint64 (n : Nat) (h : n < 2 ^ 64) : beUint (putUint64 n) = n := by
  simp only [putUint64, beUint, byteOf, List.foldl_cons, List.foldl_nil]
  omega

theorem toUint64_lt (x : Int) : toUint64 x < 2 ^ 64 := by
  unfold toUint64
  omega

theorem toInt64_toUint64 (x : Int) (h : isInt64 x) : toInt64 (toUint64 x) = x := by
  unfold isInt64 at h
  unfold toInt64 toUint64
  split <;> omega

theorem readInt64_append (x : Int) (h : isInt64 x) (rest : List Byte) :
    readInt64 (putInt64 x ++ rest) = some (x, rest) := by
  have hl : (putInt64 x).length = 8 := rfl
  unfold readInt64
  rw [if_neg (by simp [hl])]
  rw [List.take_left' hl, List.drop_left' hl]
  simp [putInt64, beUint_putUint64 _ (toUint64_lt x), toInt64_toUint64 x h]

theorem readFloat64_append (n : Nat) (h : n < 2 ^ 64) (rest : List Byte) :
    readFloat64 (putUint64 n ++ rest) = some (n, rest) := by
  have hl : (putUint64 n).length = 8 := rfl
  unfold readFloat64
  rw [if_neg (by simp [hl])]
  rw [List.take_left' hl, List.drop_left' hl]
  simp [beUint_putUint64 _ h]

theorem readerRead_exact (s : List Byte) (h : s ≠ []) : readerRead s s.length = some s := by
  unfold readerRead
  have : s.length ≠ 0 := by simpa using h
  simp [this]

theorem isInt64_small (x : Int) (h0 : 0 ≤ x) (h1 : x < 2 ^ 63) : isInt64 x := by
  unfold isInt64; omega

theorem ConvertFromBinary_frame (sender kind size proposal : Int) (hs : isInt64 sender)
    (hk : isInt64 kind) (hz : isInt64 size) (hpos : size > 0) (hp : isInt64 proposal)
    (body : List Byte) :
    ConvertFromBinary (putInt64 sender ++ putInt64 kind ++ putInt64 size ++
        (putInt64 proposal ++ body)) =
      match readInt64 body with
      | none => GoResult.err CodecError.readValueType
      | some (valueType, r5) =>
        if valueType = NIL then GoResult.ok ⟨⟨sender, kind, size⟩, ⟨proposal, Value.nil⟩⟩
        else if valueType = INT64 then
          match readInt64 r5 with
          | none => GoResult.err CodecError.readInt64Value
          | some (int64Value, _) =>
            GoResult.ok ⟨⟨sender, kind, size⟩, ⟨proposal, Value.int64 int64Value⟩⟩
        else if valueType = FLOAT64 then
          match readFloat64 r5 with
          | none => GoResult.err CodecError.readFloat64Value
          | some (floatValue, _) =>
            GoResult.ok ⟨⟨sender, kind, size⟩, ⟨proposal, Value.float64 floatValue⟩⟩
        else if valueType = STRING then
          match readInt64 r5 with
          | none => GoResult.err CodecError.readStringLength
          | some (strLen, r6) =>
          if makePanics strLen then GoResult.panic
          else
            match readerRead r6 strLen.toNat with
            | none => GoResult.err CodecError.readStringValue
            | some strBytes => GoResult.ok ⟨⟨sender, kind, size⟩, ⟨proposal, Value.str strBytes⟩⟩
        else GoResult.err (CodecError.unsupportedTypeIdentifier valueType) := by
  unfold ConvertFromBinary
  simp only [List.append_assoc, readInt64_append _ hs, readInt64_append _ hk,
    readInt64_append _ hz, readInt64_append _ hp, if_pos hpos]

theorem readInt64_exact (x : Int) (h : isInt64 x) : readInt64 (putInt64 x) = some (x, []) := by
  simpa using readInt64_append x h []

theorem readFloat64_exact (n : Nat) (h : n < 2 ^ 64) :
    readFloat64 (putUint64 n) = some (n, []) := by
  simpa using readFloat64_append n h []

theorem ConvertToBinary_eq (m : Message) (body : List Byte)
    (h : encodeValue m.Payload.Value = Except.ok body) :
    ConvertToBinary m = Except.ok (putInt64 m.Header.SenderID ++ putInt64 m.Header.MessageType ++
      putInt64 (8 + (body.length : Int)) ++ (putInt64 m.Payload.Proposal ++ body)) := by
  unfold ConvertToBinary
  rw [h]
  simp only [List.length_append, putInt64_length, Nat.cast_add, Nat.cast_ofNat]

theorem isInt64_payloadSize (body : List Byte) (h : (body.length : Int) + 8 < 2 ^ 63) :
    isInt64 (8 + (body.length : Int)) ∧ 8 + (body.length : Int) > 0 := by
  unfold isInt64; omega

theorem ConvertToBinary_roundTrips (m : Message) (hs : isInt64 m.Header.SenderID)
    (hk : isInt64 m.Header.MessageType) (hp : isInt64 m.Payload.Proposal)
    (hv : m.Payload.Value.roundTrips) :
    ∃ data, ConvertToBinary m = Except.ok data ∧
      ConvertFromBinary data =
        GoResult.ok ⟨⟨m.Header.SenderID, m.Header.MessageType, (data.length : Int) - 24⟩,
          m.Payload⟩ := by
  obtain ⟨⟨sender, kind, psz⟩, ⟨proposal, value⟩⟩ := m
  simp only at hs hk hp hv
  cases value with
  | nil =>
    have hz := isInt64_payloadSize (putInt64 NIL) (by decide)
    refine ⟨_, ConvertToBinary_eq _ _ rfl, ?_⟩
    rw [ConvertFromBinary_frame _ _ _ _ hs hk hz.1 hz.2 hp]
    rw [readInt64_exact _ (by decide)]
    simp [putInt64_length]
  | int64 v =>
    simp only [Value.roundTrips] at hv
    have hz := isInt64_payloadSize (putInt64 INT64 ++ putInt64 v) (by simp [putInt64_length])
    refine ⟨_, ConvertToBinary_eq _ _ rfl, ?_⟩
    rw [ConvertFromBinary_frame _ _ _ _ hs hk hz.1 hz.2 hp]
    rw [readInt64_append _ (by decide)]
    simp [NIL, INT64, putInt64_length, readInt64_exact _ hv]
  | float64 b =>
    simp only [Value.roundTrips] at hv
    have hz := isInt64_payloadSize (putInt64 FLOAT64 ++ putUint64 b) (by simp [putInt64_length, putUint64])
    refine ⟨_, ConvertToBinary_eq _ _ rfl, ?_⟩
    rw [ConvertFromBinary_frame _ _ _ _ hs hk hz.1 hz.2 hp]
    rw [readInt64_append _ (by decide)]
    simp [NIL, INT64, FLOAT64, putInt64_length, readFloat64_exact _ hv]
    simp [putUint64]
  | str s =>
    simp only [Value.roundTrips] at hv
    obtain ⟨hne, hlen⟩ := hv
    have hlen : (s.length : Int) ≤ 2 ^ 48 := hlen
    have hl : isInt64 (s.length : Int) := isInt64_small _ (by omega) (by omega)
    have hz := isInt64_payloadSize (putInt64 STRING ++ putInt64 (s.length : Int) ++ s)
      (by simp only [List.length_append, putInt64_length, Nat.cast_add, Nat.cast_ofNat]; omega)
    refine ⟨_, ConvertToBinary_eq _ _ rfl, ?_⟩
    rw [ConvertFromBinary_frame _ _ _ _ hs hk hz.1 hz.2 hp]
    simp only [List.append_assoc]
    rw [readInt64_append _ (by decide)]
    have hnn : makePanics (s.length : Int) = false := by
      simp only [makePanics, maxAlloc, decide_eq_false_iff_not]; omega
    simp [NIL, INT64, FLOAT64, STRING, putInt64_length, readInt64_append _ hl, hnn,
      readerRead_exact s hne]
    omega
  | other r => exact absurd hv (by simp [Value.roundTrips])

/-- C1 (failing input). The message with sender 1, kind 1, proposal 5 and the
empty string as value is encoded by `ConvertToBinary` into a 48-byte frame, and
`ConvertFromBinary` on that frame returns the error "failed to read string
Value" instead of the message: at the end of the data `bytes.Reader.Read`
reports `io.EOF` even for a zero-length read. -/
theorem C1_empty_string_not_decoded :
    ConvertToBinary ⟨⟨1, 1, 0⟩, ⟨5, Value.str []⟩⟩ =
      Except.ok (putInt64 1 ++ putInt64 1 ++ putInt64 24 ++
        (putInt64 5 ++ (putInt64 3 ++ putInt64 0 ++ []))) ∧
    ConvertFromBinary (putInt64 1 ++ putInt64 1 ++ putInt64 24 ++
        (putInt64 5 ++ (putInt64 3 ++ putInt64 0 ++ []))) =
      GoResult.err CodecError.readStringValue := by
  constructor
  · rfl
  · decide

/-! ## Acceptor handlers -/

theorem Acceptor.handlePrepareMessage_eq (a : Acceptor) (s : StateManager) (message : Message) :
    a.handlePrepareMessage s message =
      (⟨max s.minProposal message.Payload.Proposal, s.acceptedProposal, s.acceptedValue⟩,
       [Effect.send message.Header.SenderID
          ⟨⟨a.tcpCommunicator.selfId, PROMISE, 0⟩, ⟨s.acceptedProposal, s.acceptedValue⟩⟩]) := by
  unfold Acceptor.handlePrepareMessage
  by_cases h : message.Payload.Proposal > s.GetMinProposal
  · have h2 : max s.minProposal message.Payload.Proposal = message.Payload.Proposal :=
      max_eq_right (le_of_lt h)
    simp [h, h2, StateManager.UpdateState, StateManager.GetAcceptedProposal,
      StateManager.GetAcceptedValue, TcpCommunicator.SendPromiseMessage,
      TcpCommunicator.sendPaxosMessage]
  · have h2 : max s.minProposal message.Payload.Proposal = s.minProposal :=
      max_eq_left (not_lt.mp h)
    simp [h, h2, StateManager.GetAcceptedProposal,
      StateManager.GetAcceptedValue, TcpCommunicator.SendPromiseMessage,
      TcpCommunicator.sendPaxosMessage]

theorem Acceptor.handleAcceptMessage_eq (a : Acceptor) (s : StateManager) (message : Message) :
    a.handleAcceptMessage s message =
      (if message.Payload.Proposal ≥ s.minProposal then
          ⟨message.Payload.Proposal, message.Payload.Proposal, message.Payload.Value⟩
        else s,
       [Effect.send message.Header.SenderID
          ⟨⟨a.tcpCommunicator.selfId, ACCEPTED, 0⟩,
           ⟨if message.Payload.Proposal ≥ s.minProposal then message.Payload.Proposal
              else s.minProposal, Value.nil⟩⟩]) := by
  simp only [Acceptor.handleAcceptMessage, StateManager.GetMinProposal,
    StateManager.UpdateState, TcpCommunicator.SendAcceptedMessage,
    TcpCommunicator.sendPaxosMessage]
  by_cases h1 : message.Payload.Proposal ≥ s.minProposal
  · simp only [if_pos h1]
  · simp only [if_neg h1]

/-- C2. For every acceptor state and every Prepare message (proposal `n`, sender
`S`), `handlePrepareMessage` leaves the state as
`(max min_proposal n, accepted_proposal, accepted_value)` and sends exactly one
message: a Promise to `S` carrying `(accepted_proposal, accepted_value)`; this
holds whether or not `n` exceeds `min_proposal`. -/
theorem C2_handlePrepareMessage (a : Acceptor) (s : StateManager) (message : Message) :
    a.handlePrepareMessage s message =
      (⟨max s.minProposal message.Payload.Proposal, s.acceptedProposal, s.acceptedValue⟩,
       [Effect.send message.Header.SenderID
          ⟨⟨a.tcpCommunicator.selfId, PROMISE, 0⟩, ⟨s.acceptedProposal, s.acceptedValue⟩⟩]) :=
  Acceptor.handlePrepareMessage_eq a s message

/-- C3. For every acceptor state and every Accept message (proposal `n`, value
`v`, sender `S`), `handleAcceptMessage` sets the three fields to `(n, n, v)` when
`n ≥ min_proposal` and leaves them unchanged otherwise; in both cases it sends
exactly one message, an Accepted to `S` whose proposal is the `min_proposal`
after the update and whose value is Nil. -/
theorem C3_handleAcceptMessage (a : Acceptor) (s : StateManager) (message : Message) :
    a.handleAcceptMessage s message =
      (if message.Payload.Proposal ≥ s.minProposal then
          ⟨message.Payload.Proposal, message.Payload.Proposal, message.Payload.Value⟩
        else s,
       [Effect.send message.Header.SenderID
          ⟨⟨a.tcpCommunicator.selfId, ACCEPTED, 0⟩,
           ⟨if message.Payload.Proposal ≥ s.minProposal then message.Payload.Proposal
              else s.minProposal, Value.nil⟩⟩]) :=
  Acceptor.handleAcceptMessage_eq a s message

/-- The `min_proposal` of the acceptor does not decrease in one step. -/
theorem Acceptor.step_minProposal_le (a : Acceptor) (s : StateManager) (i : AcceptorInput) :
    s.minProposal ≤ (a.step s i).1.minProposal := by
  cases i with
  | prepare m =>
    simp only [Acceptor.step, Acceptor.handlePrepareMessage_eq]
    exact le_max_left _ _
  | accept m =>
    simp only [Acceptor.step, Acceptor.handleAcceptMessage_eq]
    by_cases h1 : m.Payload.Proposal ≥ s.minProposal
    · simp only [if_pos h1]; exact h1
    · simp only [if_neg h1]; exact le_refl _

theorem Acceptor.run_append (a : Acceptor) (s : StateManager) (l1 l2 : List AcceptorInput) :
    a.run s (l1 ++ l2) = a.run (a.run s l1) l2 := by
  simp [Acceptor.run, List.foldl_append]

theorem Acceptor.run_snoc (a : Acceptor) (s : StateManager) (l : List AcceptorInput)
    (i : AcceptorInput) : a.run s (l ++ [i]) = (a.step (a.run s l) i).1 := by
  simp [Acceptor.run, List.foldl_append]

/-- C4. Starting from the initial acceptor state `(0, 0, Nil)`, for every finite
sequence of Prepare and Accept inputs and every further input, `min_proposal`
after that input is at least `min_proposal` before it. -/
theorem C4_acceptor_monotonicity (a : Acceptor) (pre : List AcceptorInput) (i : AcceptorInput) :
    (a.run NewStateManager pre).minProposal ≤ (a.run NewStateManager (pre ++ [i])).minProposal := by
  rw [Acceptor.run_snoc]
  exact Acceptor.step_minProposal_le a _ i

/-- The acceptor-safety invariant: a nonzero accepted proposal was put there by
an Accept input that met the guard when it was received. -/
theorem Acceptor.run_accepted_origin (a : Acceptor) (inputs : List AcceptorInput)
    (h : (a.run NewStateManager inputs).acceptedProposal ≠ 0) :
    ∃ pre post m, inputs = pre ++ AcceptorInput.accept m :: post ∧
      m.Payload.Proposal = (a.run NewStateManager inputs).acceptedProposal ∧
      m.Payload.Value = (a.run NewStateManager inputs).acceptedValue ∧
      m.Payload.Proposal ≥ (a.run NewStateManager pre).minProposal := by
  induction inputs using List.reverseRecOn with
  | nil => exact absurd rfl h
  | append_singleton l i ih =>
    rw [Acceptor.run_snoc] at h ⊢
    cases i with
    | prepare m =>
      simp only [Acceptor.step, Acceptor.handlePrepareMessage_eq] at h ⊢
      obtain ⟨pre, post, m0, hl, hp, hv, hg⟩ := ih h
      exact ⟨pre, post ++ [AcceptorInput.prepare m], m0, by simp [hl], hp, hv, hg⟩
    | accept m =>
      simp only [Acceptor.step, Acceptor.handleAcceptMessage_eq] at h ⊢
      by_cases h1 : m.Payload.Proposal ≥ (a.run NewStateManager l).minProposal
      · simp only [if_pos h1]
        exact ⟨l, [], m, rfl, rfl, rfl, h1⟩
      · simp only [if_neg h1] at h ⊢
        obtain ⟨pre, post, m0, hl, hp, hv, hg⟩ := ih h
        exact ⟨pre, post ++ [AcceptorInput.accept m], m0, by simp [hl], hp, hv, hg⟩

/-- C5. Starting from the initial acceptor state, after every finite sequence
of Prepare and Accept inputs: if `accepted_proposal = n > 0` and
`accepted_value = v`, then the sequence contains an Accept with proposal `n` and
value `v` that was received when `n ≥` the then-current `min_proposal`. -/
theorem C5_acceptor_safety (a : Acceptor) (inputs : List AcceptorInput) (n : Int) (v : Value)
    (hn : (a.run NewStateManager inputs).acceptedProposal = n) (hpos : n > 0)
    (hv : (a.run NewStateManager inputs).acceptedValue = v) :
    ∃ pre post m, inputs = pre ++ AcceptorInput.accept m :: post ∧
      m.Payload.Proposal = n ∧ m.Payload.Value = v ∧
      n ≥ (a.run NewStateManager pre).minProposal := by
  have h0 : (a.run NewStateManager inputs).acceptedProposal ≠ 0 := by omega
  obtain ⟨pre, post, m, hl, hp, hval, hg⟩ := Acceptor.run_accepted_origin a inputs h0
  exact ⟨pre, post, m, hl, hp.trans hn, hval.trans hv, by rw [← hn, ← hp]; exact hg⟩

/-- C5 at a concrete run: Prepare(3), Accept(5, "x"), Prepare(9). -/
theorem C5_acceptor_safety_witness :
    ∃ pre post m,
      [AcceptorInput.prepare ⟨⟨2, 1, 16⟩, ⟨3, Value.nil⟩⟩,
       AcceptorInput.accept ⟨⟨2, 3, 25⟩, ⟨5, Value.str [120]⟩⟩,
       AcceptorInput.prepare ⟨⟨3, 1, 16⟩, ⟨9, Value.nil⟩⟩] = pre ++ AcceptorInput.accept m :: post ∧
      m.Payload.Proposal = 5 ∧ m.Payload.Value = Value.str [120] ∧
      (5 : Int) ≥ (Acceptor.run ⟨1, ⟨1⟩⟩ NewStateManager pre).minProposal :=
  C5_acceptor_safety ⟨1, ⟨1⟩⟩ _ 5 (Value.str [120]) (by decide) (by decide) (by decide)

/-! ## Proposer handlers -/

theorem add64_one (x : Int) (h1 : -(2 : Int) ^ 63 ≤ x) (h2 : x + 1 < (2 : Int) ^ 63) :
    add64 x 1 = x + 1 := by
  unfold add64 wrap64
  omega

theorem Value.isNil_eq (v : Value) : v.isNil = decide (v = Value.nil) := by
  cases v <;> simp [Value.isNil]

theorem Proposer.prepareLoop_eq (q : List Int) : ∀ p : Proposer,
    -(2 : Int) ^ 63 ≤ p.promiseResponses →
    p.promiseResponses + (q.count p.id : Int) < (2 : Int) ^ 63 →
    p.prepareLoop q =
      ({ p with promiseResponses := p.promiseResponses + (q.count p.id : Int) },
       (q.filter (fun t => t ≠ p.id)).map
         (fun t => p.tcpCommunicator.SendPrepareMessage t p.proposalNumber p.value)) := by
  induction q with
  | nil => intro p _ _; simp [Proposer.prepareLoop]
  | cons t q ih =>
    intro p h1 h2
    by_cases ht : t = p.id
    · subst ht
      simp only [List.count_cons_self, Nat.cast_add, Nat.cast_one] at h2
      have hq := ih { p with promiseResponses := add64 p.promiseResponses 1 }
      rw [add64_one _ h1 (by omega)] at hq
      have hq2 := hq (by simp only; omega) (by simp only; omega)
      simp only [Proposer.prepareLoop, if_true, add64_one _ h1 (by omega : p.promiseResponses + 1 < (2 : Int) ^ 63)]
      rw [hq2]
      simp [List.count_cons_self]
      omega
    · have hc : (t :: q).count p.id = q.count p.id := by
        rw [List.count_cons_of_ne]; exact fun h => ht h.symm
      rw [hc] at h2
      simp only [Proposer.prepareLoop, if_neg ht, ih p h1 h2, hc]
      simp [ht]

theorem Proposer.acceptLoop_eq (q : List Int) : ∀ p : Proposer,
    -(2 : Int) ^ 63 ≤ p.acceptResponses →
    p.acceptResponses + (q.count p.id : Int) < (2 : Int) ^ 63 →
    p.acceptLoop q =
      ({ p with acceptResponses := p.acceptResponses + (q.count p.id : Int) },
       (q.filter (fun t => t ≠ p.id)).map
         (fun t => p.tcpCommunicator.SendAcceptMessage t p.proposalNumber p.value)) := by
  induction q with
  | nil => intro p _ _; simp [Proposer.acceptLoop]
  | cons t q ih =>
    intro p h1 h2
    by_cases ht : t = p.id
    · subst ht
      simp only [List.count_cons_self, Nat.cast_add, Nat.cast_one] at h2
      have hq := ih { p with acceptResponses := add64 p.acceptResponses 1 }
      rw [add64_one _ h1 (by omega)] at hq
      have hq2 := hq (by simp only; omega) (by simp only; omega)
      simp only [Proposer.acceptLoop, if_true, add64_one _ h1 (by omega : p.acceptResponses + 1 < (2 : Int) ^ 63)]
      rw [hq2]
      simp [List.count_cons_self]
      omega
    · have hc : (t :: q).count p.id = q.count p.id := by
        rw [List.count_cons_of_ne]; exact fun h => ht h.symm
      rw [hc] at h2
      simp only [Proposer.acceptLoop, if_neg ht, ih p h1 h2, hc]
      simp [ht]

theorem count_lt_of_length_lt (q : List Int) (x : Int) (h : (q.length : Int) < (2 : Int) ^ 63) :
    (0 : Int) + (q.count x : Int) < (2 : Int) ^ 63 := by
  have := List.count_le_length x q
  omega

theorem Proposer.sendProposal_eq (p : Proposer) (s : StateManager)
    (hq : (p.quorum.length : Int) < (2 : Int) ^ 63) :
    p.sendProposal s =
      ({ p with
          proposalNumber := add64 (max p.proposalNumber p.minProposalNumber) 1,
          value := if p.acceptedValue = Value.nil then p.value else p.acceptedValue,
          acceptedValue := Value.nil,
          promiseResponses := (p.quorum.count p.id : Int) },
       ⟨add64 (max p.proposalNumber p.minProposalNumber) 1, s.acceptedProposal, s.acceptedValue⟩,
       (p.quorum.filter (fun t => t ≠ p.id)).map (fun t =>
          Effect.send t ⟨⟨p.tcpCommunicator.selfId, PREPARE, 0⟩,
            ⟨add64 (max p.proposalNumber p.minProposalNumber) 1,
             if p.acceptedValue = Value.nil then p.value else p.acceptedValue⟩⟩)) := by
  have hc := count_lt_of_length_lt p.quorum p.id hq
  have hnil : ∀ v : Value, (!v.isNil) = true ↔ ¬ v = Value.nil := by
    intro v; cases v <;> simp [Value.isNil]
  unfold Proposer.sendProposal
  by_cases h1 : p.minProposalNumber > p.proposalNumber
  · have hm : max p.proposalNumber p.minProposalNumber = p.minProposalNumber :=
      max_eq_right (le_of_lt h1)
    by_cases h2 : p.acceptedValue = Value.nil
    · simp only [if_pos h1, hnil, h2, not_true_eq_false, if_false, if_true, hm]
      rw [Proposer.prepareLoop_eq _ _ (by simp) (by simpa using hc)]
      simp [h2, StateManager.UpdateState,
        TcpCommunicator.SendPrepareMessage, TcpCommunicator.sendPaxosMessage]
    · simp only [if_pos h1, hnil, h2, not_false_eq_true, if_false, if_true, hm]
      rw [Proposer.prepareLoop_eq _ _ (by simp) (by simpa using hc)]
      simp [StateManager.UpdateState,
        TcpCommunicator.SendPrepareMessage, TcpCommunicator.sendPaxosMessage]
  · have hm : max p.proposalNumber p.minProposalNumber = p.proposalNumber :=
      max_eq_left (not_lt.mp h1)
    by_cases h2 : p.acceptedValue = Value.nil
    · simp only [if_neg h1, hnil, h2, not_true_eq_false, if_false, if_true, hm]
      rw [Proposer.prepareLoop_eq _ _ (by simp) (by simpa using hc)]
      simp [h2, StateManager.UpdateState,
        TcpCommunicator.SendPrepareMessage, TcpCommunicator.sendPaxosMessage]
    · simp only [if_neg h1, hnil, h2, not_false_eq_true, if_false, if_true, hm]
      rw [Proposer.prepareLoop_eq _ _ (by simp) (by simpa using hc)]
      simp [StateManager.UpdateState,
        TcpCommunicator.SendPrepareMessage, TcpCommunicator.sendPaxosMessage]

theorem Value.not_isNil_iff (v : Value) : (!v.isNil) = true ↔ ¬ v = Value.nil := by
  cases v <;> simp [Value.isNil]

theorem Proposer.handlePromiseMessage_eq (p : Proposer) (s : StateManager) (message : Message)
    (hq : (p.quorum.length : Int) < (2 : Int) ^ 63) :
    p.handlePromiseMessage s message =
      if add64 p.promiseResponses 1 = (p.quorum.length : Int) then
        ({ p with
            promiseResponses := add64 p.promiseResponses 1,
            minProposalNumber := max p.minProposalNumber message.Payload.Proposal,
            acceptedValue :=
              if message.Payload.Value = Value.nil then p.acceptedValue else message.Payload.Value,
            value :=
              if (if message.Payload.Value = Value.nil then p.acceptedValue
                    else message.Payload.Value) = Value.nil then p.value
              else (if message.Payload.Value = Value.nil then p.acceptedValue
                    else message.Payload.Value),
            acceptResponses := (p.quorum.count p.id : Int) },
         ⟨p.proposalNumber, p.proposalNumber,
            if (if message.Payload.Value = Value.nil then p.acceptedValue
                  else message.Payload.Value) = Value.nil then p.value
            else (if message.Payload.Value = Value.nil then p.acceptedValue
                  else message.Payload.Value)⟩,
         (p.quorum.filter (fun t => t ≠ p.id)).map (fun t =>
            Effect.send t ⟨⟨p.tcpCommunicator.selfId, ACCEPT, 0⟩,
              ⟨p.proposalNumber,
               if (if message.Payload.Value = Value.nil then p.acceptedValue
                     else message.Payload.Value) = Value.nil then p.value
               else (if message.Payload.Value = Value.nil then p.acceptedValue
                     else message.Payload.Value)⟩⟩))
      else
        ({ p with
            promiseResponses := add64 p.promiseResponses 1,
            minProposalNumber := max p.minProposalNumber message.Payload.Proposal,
            acceptedValue :=
              if message.Payload.Value = Value.nil then p.acceptedValue else message.Payload.Value,
            acceptResponses := 0 },
         s, []) := by
  have hc := count_lt_of_length_lt p.quorum p.id hq
  unfold Proposer.handlePromiseMessage
  by_cases hp : message.Payload.Proposal > p.minProposalNumber
  · have hmax : max p.minProposalNumber message.Payload.Proposal = message.Payload.Proposal :=
      max_eq_right (le_of_lt hp)
    by_cases hv : message.Payload.Value = Value.nil
    · by_cases ha : p.acceptedValue = Value.nil
      · by_cases hn : add64 p.promiseResponses 1 = (p.quorum.length : Int)
        · simp only [hp, hmax, Value.not_isNil_iff, hv, ha, hn, not_true_eq_false, if_false, if_true]
          rw [Proposer.acceptLoop_eq _ _ (by simp) (by simpa using hc)]
          simp [ha, StateManager.UpdateState, TcpCommunicator.SendAcceptMessage,
            TcpCommunicator.sendPaxosMessage]
        · simp only [hp, hmax, Value.not_isNil_iff, hv, ha, hn, not_true_eq_false, if_false, if_true]
      · by_cases hn : add64 p.promiseResponses 1 = (p.quorum.length : Int)
        · simp only [hp, hmax, Value.not_isNil_iff, hv, ha, hn, not_true_eq_false,
            not_false_eq_true, if_false, if_true]
          rw [Proposer.acceptLoop_eq _ _ (by simp) (by simpa using hc)]
          simp [StateManager.UpdateState, TcpCommunicator.SendAcceptMessage,
            TcpCommunicator.sendPaxosMessage]
        · simp only [hp, hmax, Value.not_isNil_iff, hv, ha, hn, not_true_eq_false, if_false, if_true]
    · by_cases hn : add64 p.promiseResponses 1 = (p.quorum.length : Int)
      · simp only [hp, hmax, Value.not_isNil_iff, hv, hn, not_false_eq_true, if_false, if_true]
        rw [Proposer.acceptLoop_eq _ _ (by simp) (by simpa using hc)]
        simp [StateManager.UpdateState, TcpCommunicator.SendAcceptMessage,
          TcpCommunicator.sendPaxosMessage]
      · simp only [hp, hmax, Value.not_isNil_iff, hv, hn, not_false_eq_true, if_false, if_true]
  · have hmax : max p.minProposalNumber message.Payload.Proposal = p.minProposalNumber :=
      max_eq_left (not_lt.mp hp)
    by_cases hv : message.Payload.Value = Value.nil
    · by_cases ha : p.acceptedValue = Value.nil
      · by_cases hn : add64 p.promiseResponses 1 = (p.quorum.length : Int)
        · simp only [hp, hmax, Value.not_isNil_iff, hv, ha, hn, not_true_eq_false, if_false, if_true]
          rw [Proposer.acceptLoop_eq _ _ (by simp) (by simpa using hc)]
          simp [ha, StateManager.UpdateState, TcpCommunicator.SendAcceptMessage,
            TcpCommunicator.sendPaxosMessage]
        · simp only [hp, hmax, Value.not_isNil_iff, hv, ha, hn, not_true_eq_false, if_false, if_true]
      · by_cases hn : add64 p.promiseResponses 1 = (p.quorum.length : Int)
        · simp only [hp, hmax, Value.not_isNil_iff, hv, ha, hn, not_true_eq_false,
            not_false_eq_true, if_false, if_true]
          rw [Proposer.acceptLoop_eq _ _ (by simp) (by simpa using hc)]
          simp [StateManager.UpdateState, TcpCommunicator.SendAcceptMessage,
            TcpCommunicator.sendPaxosMessage]
        · simp only [hp, hmax, Value.not_isNil_iff, hv, ha, hn, not_true_eq_false, if_false, if_true]
    · by_cases hn : add64 p.promiseResponses 1 = (p.quorum.length : Int)
      · simp only [hp, hmax, Value.not_isNil_iff, hv, hn, not_false_eq_true, if_false, if_true]
        rw [Proposer.acceptLoop_eq _ _ (by simp) (by simpa using hc)]
        simp [StateManager.UpdateState, TcpCommunicator.SendAcceptMessage,
          TcpCommunicator.sendPaxosMessage]
      · simp only [hp, hmax, Value.not_isNil_iff, hv, hn, not_false_eq_true, if_false, if_true]

theorem Proposer.handleAcceptedMessage_eq (p : Proposer) (s : StateManager) (message : Message) :
    (p.handleAcceptedMessage s message).1.acceptResponses = add64 p.acceptResponses 1 ∧
    (p.handleAcceptedMessage s message).1.minProposalNumber =
      max p.minProposalNumber message.Payload.Proposal ∧
    (p.handleAcceptedMessage s message).2 =
      if add64 p.acceptResponses 1 = (p.quorum.length : Int) then
        if max p.minProposalNumber message.Payload.Proposal ≤ p.proposalNumber then
          [Effect.chose p.id s.acceptedValue message.Payload.Proposal]
        else [Effect.retry]
      else [] := by
  unfold Proposer.handleAcceptedMessage
  by_cases hp : message.Payload.Proposal > p.minProposalNumber
  · have hmax : max p.minProposalNumber message.Payload.Proposal = message.Payload.Proposal :=
      max_eq_right (le_of_lt hp)
    by_cases hg : message.Payload.Value.goEq p.acceptedValue = true <;>
    by_cases hn : add64 p.acceptResponses 1 = (p.quorum.length : Int) <;>
    by_cases hl : message.Payload.Proposal ≤ p.proposalNumber <;>
    simp [hp, hmax, hg, hn, hl, StateManager.GetAcceptedValue]
  · have hmax : max p.minProposalNumber message.Payload.Proposal = p.minProposalNumber :=
      max_eq_left (not_lt.mp hp)
    by_cases hg : message.Payload.Value.goEq p.acceptedValue = true <;>
    by_cases hn : add64 p.acceptResponses 1 = (p.quorum.length : Int) <;>
    by_cases hl : p.minProposalNumber ≤ p.proposalNumber <;>
    simp [hp, hmax, hg, hn, hl, StateManager.GetAcceptedValue]

/-- C8. For every proposer state (with a quorum whose length is a Go `int`),
`sendProposal` (1) sets `proposal_number` to `max proposal_number
min_proposal_seen + 1`, the `+ 1` being the `int64` addition of the program,
(2) moves a non-Nil `adopted_value` into `value` and clears it, leaving both
unchanged otherwise, (3) sets `promise_count` to the number of quorum entries
equal to the own id, (4) writes the new `proposal_number` into `min_proposal` of
the shared acceptor state and leaves its other two fields, (5) sends, in quorum
order, one Prepare (new number, new value) to each quorum entry that is not the
own id, and nothing else.  The second part says that the `int64` addition is
the exact `+ 1` whenever the maximum is below `2^63 - 1`. -/
theorem C8_sendProposal (p : Proposer) (s : StateManager)
    (hq : (p.quorum.length : Int) < (2 : Int) ^ 63) :
    p.sendProposal s =
      ({ p with
          proposalNumber := add64 (max p.proposalNumber p.minProposalNumber) 1,
          value := if p.acceptedValue = Value.nil then p.value else p.acceptedValue,
          acceptedValue := Value.nil,
          promiseResponses := (p.quorum.count p.id : Int) },
       ⟨add64 (max p.proposalNumber p.minProposalNumber) 1, s.acceptedProposal, s.acceptedValue⟩,
       (p.quorum.filter (fun t => t ≠ p.id)).map (fun t =>
          Effect.send t ⟨⟨p.tcpCommunicator.selfId, PREPARE, 0⟩,
            ⟨add64 (max p.proposalNumber p.minProposalNumber) 1,
             if p.acceptedValue = Value.nil then p.value else p.acceptedValue⟩⟩)) ∧
    (isInt64 (max p.proposalNumber p.minProposalNumber) →
      max p.proposalNumber p.minProposalNumber + 1 < (2 : Int) ^ 63 →
      add64 (max p.proposalNumber p.minProposalNumber) 1 =
        max p.proposalNumber p.minProposalNumber + 1) :=
  ⟨Proposer.sendProposal_eq p s hq, fun h1 h2 => add64_one _ h1.1 h2⟩

/-- C8 at the proposer of host 1 with seed 1, value "foo" and quorum 2, 3. -/
theorem C8_sendProposal_witness :
    ((([2, 3] : List Int).length : Int) < (2 : Int) ^ 63) ∧
    (NewProposer 1 1 (Value.str [102, 111, 111]) [2, 3] ⟨1⟩).sendProposal NewStateManager =
      ({ NewProposer 1 1 (Value.str [102, 111, 111]) [2, 3] ⟨1⟩ with proposalNumber := 2 },
       ⟨2, 0, Value.nil⟩,
       [Effect.send 2 ⟨⟨1, PREPARE, 0⟩, ⟨2, Value.str [102, 111, 111]⟩⟩,
        Effect.send 3 ⟨⟨1, PREPARE, 0⟩, ⟨2, Value.str [102, 111, 111]⟩⟩]) :=
  ⟨by decide,
   (C8_sendProposal (NewProposer 1 1 (Value.str [102, 111, 111]) [2, 3] ⟨1⟩) NewStateManager
      (by decide)).1.trans (by decide)⟩

/-- C9. For every proposer state (with a quorum whose length is a Go `int`) and
every Promise `(p, v)`, `handlePromiseMessage` increments `promise_count`, sets
`min_proposal_seen` to `max min_proposal_seen p`, sets `adopted_value` to `v`
when `v` is not Nil and resets `accept_count` to 0.  Exactly when the
incremented `promise_count` equals the quorum length it also sets `value` to a
non-Nil `adopted_value`, writes `(proposal_number, proposal_number, value)` into
the shared acceptor state, sets `accept_count` to the number of quorum entries
equal to the own id and sends, in quorum order, `Accept(proposal_number,
value)` to every other quorum entry.  Otherwise it sends nothing and leaves the
shared acceptor state unchanged. -/
theorem C9_handlePromiseMessage (p : Proposer) (s : StateManager) (message : Message)
    (hq : (p.quorum.length : Int) < (2 : Int) ^ 63) :
    p.handlePromiseMessage s message =
      if add64 p.promiseResponses 1 = (p.quorum.length : Int) then
        ({ p with
            promiseResponses := add64 p.promiseResponses 1,
            minProposalNumber := max p.minProposalNumber message.Payload.Proposal,
            acceptedValue :=
              if message.Payload.Value = Value.nil then p.acceptedValue else message.Payload.Value,
            value :=
              if (if message.Payload.Value = Value.nil then p.acceptedValue
                    else message.Payload.Value) = Value.nil then p.value
              else (if message.Payload.Value = Value.nil then p.acceptedValue
                    else message.Payload.Value),
            acceptResponses := (p.quorum.count p.id : Int) },
         ⟨p.proposalNumber, p.proposalNumber,
            if (if message.Payload.Value = Value.nil then p.acceptedValue
                  else message.Payload.Value) = Value.nil then p.value
            else (if message.Payload.Value = Value.nil then p.acceptedValue
                  else message.Payload.Value)⟩,
         (p.quorum.filter (fun t => t ≠ p.id)).map (fun t =>
            Effect.send t ⟨⟨p.tcpCommunicator.selfId, ACCEPT, 0⟩,
              ⟨p.proposalNumber,
               if (if message.Payload.Value = Value.nil then p.acceptedValue
                     else message.Payload.Value) = Value.nil then p.value
               else (if message.Payload.Value = Value.nil then p.acceptedValue
                     else message.Payload.Value)⟩⟩))
      else
        ({ p with
            promiseResponses := add64 p.promiseResponses 1,
            minProposalNumber := max p.minProposalNumber message.Payload.Proposal,
            acceptedValue :=
              if message.Payload.Value = Value.nil then p.acceptedValue else message.Payload.Value,
            acceptResponses := 0 },
         s, []) :=
  Proposer.handlePromiseMessage_eq p s message hq

/-- C9 at the second Promise of a round with quorum 2, 3: the Accepts go out. -/
theorem C9_handlePromiseMessage_witness :
    ((([2, 3] : List Int).length : Int) < (2 : Int) ^ 63) ∧
    Proposer.handlePromiseMessage
        { NewProposer 1 2 (Value.str [102, 111, 111]) [2, 3] ⟨1⟩ with promiseResponses := 1 }
        ⟨2, 0, Value.nil⟩ ⟨⟨3, PROMISE, 16⟩, ⟨0, Value.nil⟩⟩ =
      ({ NewProposer 1 2 (Value.str [102, 111, 111]) [2, 3] ⟨1⟩ with promiseResponses := 2 },
       ⟨2, 2, Value.str [102, 111, 111]⟩,
       [Effect.send 2 ⟨⟨1, ACCEPT, 0⟩, ⟨2, Value.str [102, 111, 111]⟩⟩,
        Effect.send 3 ⟨⟨1, ACCEPT, 0⟩, ⟨2, Value.str [102, 111, 111]⟩⟩]) :=
  ⟨by decide,
   (C9_handlePromiseMessage
      { NewProposer 1 2 (Value.str [102, 111, 111]) [2, 3] ⟨1⟩ with promiseResponses := 1 }
      ⟨2, 0, Value.nil⟩ ⟨⟨3, PROMISE, 16⟩, ⟨0, Value.nil⟩⟩ (by decide)).trans (by decide)⟩

/-- C10. For every proposer state and every Accepted `(p, _)`,
`handleAcceptedMessage` increments `accept_count` and sets `min_proposal_seen`
to `max min_proposal_seen p`.  It emits a `chose` event, carrying the
`accepted_value` held in the local acceptor state, if and only if the
incremented `accept_count` equals the quorum length and the updated
`min_proposal_seen ≤ proposal_number`; it signals a retry if and only if the
counts are equal and the updated `min_proposal_seen > proposal_number`; in every
other case it emits nothing. -/
theorem C10_handleAcceptedMessage (p : Proposer) (s : StateManager) (message : Message) :
    (p.handleAcceptedMessage s message).1.acceptResponses = add64 p.acceptResponses 1 ∧
    (p.handleAcceptedMessage s message).1.minProposalNumber =
      max p.minProposalNumber message.Payload.Proposal ∧
    (p.handleAcceptedMessage s message).2 =
      (if add64 p.acceptResponses 1 = (p.quorum.length : Int) then
        if max p.minProposalNumber message.Payload.Proposal ≤ p.proposalNumber then
          [Effect.chose p.id s.acceptedValue message.Payload.Proposal]
        else [Effect.retry]
      else []) ∧
    ((∃ peer v n, Effect.chose peer v n ∈ (p.handleAcceptedMessage s message).2) ↔
      (add64 p.acceptResponses 1 = (p.quorum.length : Int) ∧
        max p.minProposalNumber message.Payload.Proposal ≤ p.proposalNumber)) ∧
    (Effect.retry ∈ (p.handleAcceptedMessage s message).2 ↔
      (add64 p.acceptResponses 1 = (p.quorum.length : Int) ∧
        max p.minProposalNumber message.Payload.Proposal > p.proposalNumber)) := by
  obtain ⟨h1, h2, h3⟩ := Proposer.handleAcceptedMessage_eq p s message
  refine ⟨h1, h2, h3, ?_, ?_⟩
  · rw [h3]
    generalize max p.minProposalNumber message.Payload.Proposal = m
    by_cases hn : add64 p.acceptResponses 1 = (p.quorum.length : Int) <;>
    by_cases hl : m ≤ p.proposalNumber <;>
    simp [hn, hl]
  · rw [h3]
    generalize max p.minProposalNumber message.Payload.Proposal = m
    by_cases hn : add64 p.acceptResponses 1 = (p.quorum.length : Int)
    · by_cases hl : m ≤ p.proposalNumber
      · simp [hn, hl]
      · simp [hn, hl, not_le.mp hl]
    · simp [hn]

/-! ## The shared acceptor state and agreement -/

/-- C6 (failing input). On host 1 the acceptor takes Accept(100, "x") from host
2 and then the colocated proposer (seed 1) runs `sendProposal`: the shared state
becomes `(2, 100, "x")`, so `accepted_proposal ≤ min_proposal` does not hold. -/
theorem C6_sendProposal_lowers_min_proposal :
    (sharedRun ⟨1, ⟨1⟩⟩ (NewStateManager, NewProposer 1 1 (Value.str [97]) [2] ⟨1⟩)
        [SharedOp.acceptorAccept ⟨⟨2, ACCEPT, 25⟩, ⟨100, Value.str [120]⟩⟩,
         SharedOp.proposerSend]).1 = ⟨2, 100, Value.str [120]⟩ ∧
    ¬ (sharedRun ⟨1, ⟨1⟩⟩ (NewStateManager, NewProposer 1 1 (Value.str [97]) [2] ⟨1⟩)
        [SharedOp.acceptorAccept ⟨⟨2, ACCEPT, 25⟩, ⟨100, Value.str [120]⟩⟩,
         SharedOp.proposerSend]).1.acceptedLeMin := by
  constructor <;> decide

theorem racingSchedule_run :
    (World.run racingWorld racingSchedule).map (fun w => (w.network, w.chosen)) =
      some ([], [(1, Value.str [98]), (2, Value.str [97])]) := by
  decide

/-- C7 (failing input). Two hosts, each with proposer number 1 and an acceptor,
proposing "a" and "b": when both start and the messages are taken in turn,
every message is delivered, host 1 prints `chose` with "b" and host 2 prints
`chose` with "a".  Agreement does not hold for this set of processes. -/
theorem C7_agreement_fails :
    (World.run racingWorld racingSchedule).map (fun w => (w.network, w.chosen)) =
      some ([], [(1, Value.str [98]), (2, Value.str [97])]) ∧
    ¬ Agreement racingWorld := by
  refine ⟨racingSchedule_run, ?_⟩
  intro h
  have hr := racingSchedule_run
  cases hw : World.run racingWorld racingSchedule with
  | none => rw [hw] at hr; exact absurd hr (by simp)
  | some w =>
    rw [hw] at hr
    simp only [Option.map_some', Option.some.injEq, Prod.mk.injEq] at hr
    have := h racingSchedule w hw hr.1 (1, Value.str [98]) (by simp [hr.2])
      (2, Value.str [97]) (by simp [hr.2]) (by decide)
    exact absurd this (by decide)

/-! ## Frame layout -/

theorem encodeValue_length (v : Value) (hv : v.isVariant = true) :
    ∃ body, encodeValue v = Except.ok body ∧ 8 + (body.length : Int) = specPayloadSize v := by
  cases v with
  | nil => exact ⟨_, rfl, by simp [specPayloadSize, putInt64_length]⟩
  | int64 x => exact ⟨_, rfl, by simp [specPayloadSize, putInt64_length]⟩
  | float64 b => exact ⟨_, rfl, by simp [specPayloadSize, putInt64_length, putUint64]⟩
  | str s =>
    refine ⟨_, rfl, ?_⟩
    simp only [specPayloadSize, List.length_append, putInt64_length, Nat.cast_add, Nat.cast_ofNat]
    omega
  | other r => simp [Value.isVariant] at hv

theorem frame_payloadSize_field (a b c rest : List Byte) (ha : a.length = 8) (hb : b.length = 8)
    (hc : c.length = 8) : ((a ++ b ++ c ++ rest).drop 16).take 8 = c := by
  have h16 : (a ++ b).length = 16 := by simp [ha, hb]
  rw [List.append_assoc (a ++ b) c rest, List.drop_left' h16, List.take_left' hc]

/-- C12. For every message whose value is one of the four variants (a string
shorter than 2^63 - 24 bytes, as every Go string is), and whatever `PayloadSize`
its header carries, `ConvertToBinary` returns a frame of length `24 + P`, where
`P` is the big-endian signed 64-bit integer in bytes 16..23 of the frame, and
`P` is 16 for Nil, 24 for Int64, 24 for Float64 and `24 + N` for a String of `N`
bytes. -/
theorem C12_frame_length (m : Message) (hv : m.Payload.Value.isVariant = true)
    (hlen : specPayloadSize m.Payload.Value < (2 : Int) ^ 63) :
    ∃ data, ConvertToBinary m = Except.ok data ∧
      (data.length : Int) = 24 + specPayloadSize m.Payload.Value ∧
      toInt64 (beUint ((data.drop 16).take 8)) = specPayloadSize m.Payload.Value := by
  obtain ⟨body, hbody, hsize⟩ := encodeValue_length m.Payload.Value hv
  refine ⟨_, ConvertToBinary_eq m body hbody, ?_, ?_⟩
  · simp only [List.length_append, putInt64_length, Nat.cast_add, Nat.cast_ofNat]
    omega
  · rw [frame_payloadSize_field _ _ _ _ (putInt64_length _) (putInt64_length _)
      (putInt64_length _), hsize]
    have hp : isInt64 (specPayloadSize m.Payload.Value) := by
      refine isInt64_small _ ?_ hlen
      rw [← hsize]; omega
    rw [putInt64, beUint_putUint64 _ (toUint64_lt _), toInt64_toUint64 _ hp]

/-- C12 at the message of the scenario "codec: nil value": sender 2, kind 2,
proposal 7, Nil; the frame has 40 bytes and its size field holds 16. -/
theorem C12_frame_length_witness :
    ((⟨⟨2, 2, 0⟩, ⟨7, Value.nil⟩⟩ : Message).Payload.Value.isVariant = true) ∧
    (specPayloadSize (⟨⟨2, 2, 0⟩, ⟨7, Value.nil⟩⟩ : Message).Payload.Value < (2 : Int) ^ 63) ∧
    ∃ data, ConvertToBinary ⟨⟨2, 2, 0⟩, ⟨7, Value.nil⟩⟩ = Except.ok data ∧
      (data.length : Int) = 24 + 16 ∧ toInt64 (beUint ((data.drop 16).take 8)) = 16 :=
  ⟨by decide, by decide, C12_frame_length ⟨⟨2, 2, 0⟩, ⟨7, Value.nil⟩⟩ (by decide) (by decide)⟩

/-- C13 (as stated, refuted). The frame `ConvertToBinary` returns for sender 1,
kind 1, proposal 5, Int64(42) has 48 bytes, not 56, and its size field (bytes
16..23) ends in 0x18, not 0x20. -/
theorem C13_frame_is_not_56_bytes :
    ∃ data, ConvertToBinary ⟨⟨1, 1, 0⟩, ⟨5, Value.int64 42⟩⟩ = Except.ok data ∧
      data.length ≠ 56 ∧ data.get? 23 ≠ some (0x20 : Byte) := by
  refine ⟨_, rfl, ?_, ?_⟩ <;> decide

/-- C13 (amended). `ConvertToBinary` of the message with sender 1, kind 1,
proposal 5 and value Int64(42) returns the 48 bytes 0000000000000001
0000000000000001 0000000000000018 0000000000000005 0000000000000001
000000000000002A. -/
theorem C13_int64_frame :
    ConvertToBinary ⟨⟨1, 1, 0⟩, ⟨5, Value.int64 42⟩⟩ =
      Except.ok [0, 0, 0, 0, 0, 0, 0, 0x01, 0, 0, 0, 0, 0, 0, 0, 0x01,
                 0, 0, 0, 0, 0, 0, 0, 0x18, 0, 0, 0, 0, 0, 0, 0, 0x05,
                 0, 0, 0, 0, 0, 0, 0, 0x01, 0, 0, 0, 0, 0, 0, 0, 0x2A] ∧
    ([0, 0, 0, 0, 0, 0, 0, 0x01, 0, 0, 0, 0, 0, 0, 0, 0x01,
      0, 0, 0, 0, 0, 0, 0, 0x18, 0, 0, 0, 0, 0, 0, 0, 0x05,
      0, 0, 0, 0, 0, 0, 0, 0x01, 0, 0, 0, 0, 0, 0, 0, 0x2A] : List Byte).length = 48 :=
  ⟨rfl, rfl⟩

/-! ## Decoder errors -/

theorem readInt64_of_length (r : List Byte) (h : 8 ≤ r.length) :
    readInt64 r = some (toInt64 (beUint (r.take 8)), r.drop 8) := by
  unfold readInt64
  rw [if_neg (by omega)]

theorem ConvertFromBinary_unknown_tag (data : List Byte) (h40 : 40 ≤ data.length)
    (hsize : toInt64 (beUint ((data.drop 16).take 8)) > 0)
    (h0 : toInt64 (beUint ((data.drop 32).take 8)) ≠ NIL)
    (h1 : toInt64 (beUint ((data.drop 32).take 8)) ≠ INT64)
    (h2 : toInt64 (beUint ((data.drop 32).take 8)) ≠ FLOAT64)
    (h3 : toInt64 (beUint ((data.drop 32).take 8)) ≠ STRING) :
    ConvertFromBinary data =
      GoResult.err (CodecError.unsupportedTypeIdentifier
        (toInt64 (beUint ((data.drop 32).take 8)))) := by
  unfold ConvertFromBinary
  rw [readInt64_of_length data (by omega)]
  simp only []
  rw [readInt64_of_length (data.drop 8) (by simp; omega)]
  simp only [List.drop_drop]
  rw [readInt64_of_length (data.drop (8 + 8)) (by simp; omega)]
  simp only [List.drop_drop]
  have e16 : 8 + 8 = 16 := rfl
  have e24 : 8 + 16 = 24 := rfl
  have e32 : 8 + 24 = 32 := rfl
  have e40 : 8 + 32 = 40 := rfl
  simp only [e16, e24] at *
  rw [if_pos hsize]
  rw [readInt64_of_length (data.drop 24) (by simp; omega)]
  simp only [List.drop_drop, e32]
  rw [readInt64_of_length (data.drop 32) (by simp; omega)]
  simp only [List.drop_drop, e40, if_neg h0, if_neg h1, if_neg h2, if_neg h3]

/-- C14. For every byte sequence that holds a 24-byte header with
`payload_size > 0`, an 8-byte proposal and an 8-byte value tag that is not 0, 1,
2 or 3, whatever bytes follow, `ConvertFromBinary` returns the error
"unsupported Value type identifier" (and no message). -/
theorem C14_unknown_tag_rejected (data : List Byte) (h40 : 40 ≤ data.length)
    (hsize : toInt64 (beUint ((data.drop 16).take 8)) > 0)
    (h0 : toInt64 (beUint ((data.drop 32).take 8)) ≠ 0)
    (h1 : toInt64 (beUint ((data.drop 32).take 8)) ≠ 1)
    (h2 : toInt64 (beUint ((data.drop 32).take 8)) ≠ 2)
    (h3 : toInt64 (beUint ((data.drop 32).take 8)) ≠ 3) :
    ConvertFromBinary data =
      GoResult.err (CodecError.unsupportedTypeIdentifier
        (toInt64 (beUint ((data.drop 32).take 8)))) :=
  ConvertFromBinary_unknown_tag data h40 hsize h0 h1 h2 h3

/-- C14 at a frame with value tag 99 followed by three more bytes. -/
theorem C14_unknown_tag_rejected_witness :
    ConvertFromBinary (putInt64 1 ++ putInt64 1 ++ putInt64 19 ++ putInt64 5 ++ putInt64 99
        ++ [1, 2, 3]) =
      GoResult.err (CodecError.unsupportedTypeIdentifier 99) :=
  (C14_unknown_tag_rejected
    (putInt64 1 ++ putInt64 1 ++ putInt64 19 ++ putInt64 5 ++ putInt64 99 ++ [1, 2, 3])
    (by decide) (by decide) (by decide) (by decide) (by decide) (by decide)).trans (by decide)

/-- C15 (failing input). A frame with payload size 25, proposal 5, value tag 3
(String), length field 5 and a single byte "a" after it: `ConvertFromBinary`,
and `readAndParseMessage` on a connection delivering the frame, return a message
whose value is the 5-byte string "a" followed by four zero bytes, not an error. -/
theorem C15_overlong_string_accepted :
    ConvertFromBinary (putInt64 1 ++ putInt64 1 ++ putInt64 25 ++ putInt64 5 ++ putInt64 3
        ++ putInt64 5 ++ [97]) =
      GoResult.ok ⟨⟨1, 1, 25⟩, ⟨5, Value.str [97, 0, 0, 0, 0]⟩⟩ ∧
    (readAndParseMessage [putInt64 1 ++ putInt64 1 ++ putInt64 25 ++ putInt64 5 ++ putInt64 3
        ++ putInt64 5 ++ [97]]).1 =
      GoResult.ok ⟨⟨1, 1, 25⟩, ⟨5, Value.str [97, 0, 0, 0, 0]⟩⟩ := by
  constructor <;> decide

/-! ## Reading from a connection -/

theorem readFully_none (conn : Conn) : ∀ n : Nat, conn.flatten.length < n → readFully conn n = none := by
  induction conn with
  | nil =>
    intro n h
    cases n with
    | zero => simp at h
    | succ n => rfl
  | cons chunk rest ih =>
    intro n h
    cases n with
    | zero => simp at h
    | succ n =>
      simp only [List.flatten_cons, List.length_append] at h
      have hc : chunk.length ≤ n + 1 := by omega
      simp only [readFully, if_pos hc, ih (n + 1 - chunk.length) (by omega)]

theorem readFully_some (conn : Conn) : ∀ n : Nat, n ≤ conn.flatten.length →
    ∃ rest, readFully conn n = some (conn.flatten.take n, rest) ∧ rest.flatten = conn.flatten.drop n := by
  induction conn with
  | nil =>
    intro n h
    have : n = 0 := by simpa using h
    subst this
    exact ⟨[], rfl, rfl⟩
  | cons chunk rest ih =>
    intro n h
    cases n with
    | zero => exact ⟨chunk :: rest, by simp [readFully], by simp⟩
    | succ n =>
      simp only [List.flatten_cons, List.length_append] at h
      by_cases hc : chunk.length ≤ n + 1
      · obtain ⟨r, hr, hj⟩ := ih (n + 1 - chunk.length) (by omega)
        refine ⟨r, ?_, ?_⟩
        · simp only [readFully, if_pos hc, hr, List.flatten_cons]
          rw [List.take_append_eq_append_take, List.take_of_length_le hc]
        · rw [hj, List.flatten_cons, List.drop_append_eq_append_drop, List.drop_of_length_le hc]
          simp
      · refine ⟨chunk.drop (n + 1) :: rest, ?_, ?_⟩
        · simp only [readFully, if_neg hc, List.flatten_cons]
          rw [List.take_append_of_le_length (by omega)]
        · simp only [List.flatten_cons]
          rw [List.drop_append_of_le_length (by omega)]

theorem take8_drop16_take24 (b : List Byte) :
    ((b.take 24).drop 16).take 8 = (b.drop 16).take 8 := by
  rw [List.drop_take, List.take_take]
  rfl

theorem readAndParseMessage_header (conn c1 : Conn) (b : List Byte) (hb : 24 ≤ b.length)
    (hr : readFully conn 24 = some (b.take 24, c1)) :
    readAndParseMessage conn =
      if makePanics (toInt64 (beUint ((b.drop 16).take 8))) then (GoResult.panic, c1)
      else
        match (if toInt64 (beUint ((b.drop 16).take 8)) > 0 then
            readFully c1 (toInt64 (beUint ((b.drop 16).take 8))).toNat else some ([], c1)) with
        | none => (GoResult.err CodecError.readPayload, [])
        | some (payload, conn2) => (ConvertFromBinary (b.take 24 ++ payload), conn2) := by
  have hlen : (b.take 24).length = 24 := by rw [List.length_take]; omega
  unfold readAndParseMessage
  rw [hr]
  simp only []
  rw [readInt64_of_length _ (by omega)]
  simp only []
  rw [readInt64_of_length _ (by rw [List.length_drop]; omega)]
  simp only []
  rw [readInt64_of_length _ (by rw [List.length_drop, List.length_drop]; omega)]
  simp only [List.drop_drop]
  have e16 : ((b.take 24).drop (8 + 8)).take 8 = (b.drop 16).take 8 := take8_drop16_take24 b
  rw [e16]

theorem readAndParseMessage_short_read (conn : Conn)
    (h : conn.flatten.length < 24 ∨
      (makePanics (toInt64 (beUint ((conn.flatten.drop 16).take 8))) = false ∧
        (conn.flatten.length : Int) < 24 + toInt64 (beUint ((conn.flatten.drop 16).take 8)))) :
    ∃ e, (readAndParseMessage conn).1 = GoResult.err e := by
  generalize hb : conn.flatten = b at h
  by_cases h24 : b.length < 24
  · refine ⟨CodecError.readHeader, ?_⟩
    unfold readAndParseMessage
    rw [readFully_none conn 24 (by rw [hb]; exact h24)]
  · have h24 : 24 ≤ b.length := by omega
    obtain hlt | ⟨hmk, hlt⟩ := h
    · omega
    obtain ⟨c1, hr, hj⟩ := readFully_some conn 24 (by rw [hb]; exact h24)
    rw [hb] at hr hj
    rw [readAndParseMessage_header conn c1 b h24 hr, hmk]
    have hpos : toInt64 (beUint ((b.drop 16).take 8)) > 0 := by omega
    have hnone : readFully c1 (toInt64 (beUint ((b.drop 16).take 8))).toNat = none := by
      apply readFully_none
      rw [hj, List.length_drop]
      omega
    refine ⟨CodecError.readPayload, ?_⟩
    simp [hpos, hnone]

/-- C16 (failing input). A connection delivers the 24-byte header with sender 1,
kind 1 and payload size 2^62 and then ends: `readAndParseMessage` panics in
`make([]byte, msgHeader.PayloadSize)` before it reads on; it does not return an
error. -/
theorem C16_huge_payload_size_panics :
    readAndParseMessage [putInt64 1 ++ putInt64 1 ++ putInt64 (2 ^ 62)] = (GoResult.panic, []) := by
  decide

set_option maxRecDepth 4000 in
/-- C17 (failing input). A connection delivers a header whose payload size is
-1, and `ConvertFromBinary` is given a frame whose String length field is -1:
both calls panic in `make([]byte, n)` with a negative `n`. -/
theorem C17_negative_sizes_panic :
    (readAndParseMessage [putInt64 1 ++ putInt64 1 ++ putInt64 (-1)]).1 = GoResult.panic ∧
    ConvertFromBinary (putInt64 1 ++ putInt64 1 ++ putInt64 24 ++ putInt64 5 ++ putInt64 3
        ++ putInt64 (-1)) = GoResult.panic ∧
    (readAndParseMessage [putInt64 1 ++ putInt64 1 ++ putInt64 24 ++ putInt64 5 ++ putInt64 3
        ++ putInt64 (-1)]).1 = GoResult.panic := by
  refine ⟨?_, ?_, ?_⟩ <;> decide

/-! ## Dispatcher -/

theorem dispatch_eq (m : Message) : dispatch m =
    if m.Header.MessageType = 1 then some Queue.prepareMessagesCh
    else if m.Header.MessageType = 2 then some Queue.promiseMessagesCh
    else if m.Header.MessageType = 3 then some Queue.acceptMessagesCh
    else if m.Header.MessageType = 4 then some Queue.acceptedMessagesCh
    else none := rfl

/-- The acceptor goroutine takes every Prepare and Accept message; the proposer
goroutine, where there is one, takes every Promise and Accepted message. -/
theorem Process.receive_some (pr : Process) (m : Message)
    (h : (m.Header.MessageType = 2 ∨ m.Header.MessageType = 4) → pr.proposer.isSome = true) :
    ∃ r, pr.receive m = some r := by
  unfold Process.receive
  rw [dispatch_eq]
  by_cases h1 : m.Header.MessageType = 1
  · simp [h1]
  · by_cases h2 : m.Header.MessageType = 2
    · have hp := h (Or.inl h2)
      cases hq : pr.proposer with
      | none => rw [hq] at hp; simp at hp
      | some p => simp [h2]
    · by_cases h3 : m.Header.MessageType = 3
      · simp [h3]
      · by_cases h4 : m.Header.MessageType = 4
        · have hp := h (Or.inr h4)
          cases hq : pr.proposer with
          | none => rw [hq] at hp; simp at hp
          | some p => simp [h4]
        · simp [h1, h2, h3, h4]

/-- An iteration of the dispatch loop ends when the message is not a Promise or
Accepted, or when the host has a proposer that is not at the send of the retry
signal. -/
theorem DispatchState.dispatchOne_some (st : DispatchState) (m : Message)
    (hrecv : (m.Header.MessageType = 2 ∨ m.Header.MessageType = 4) →
      st.process.proposer.isSome = true ∧ st.proposerAtRetrySend = false) :
    ∃ st1, st.dispatchOne m = some st1 := by
  obtain ⟨r, hr⟩ := Process.receive_some st.process m (fun h => (hrecv h).1)
  unfold DispatchState.dispatchOne
  rw [hr, dispatch_eq]
  by_cases h1 : m.Header.MessageType = 1
  · simp [h1]
  · by_cases h2 : m.Header.MessageType = 2
    · simp [h2, (hrecv (Or.inl h2)).2]
    · by_cases h3 : m.Header.MessageType = 3
      · simp [h3]
      · by_cases h4 : m.Header.MessageType = 4
        · simp [h4, (hrecv (Or.inr h4)).2]
        · simp [h1, h2, h3, h4]

theorem DispatchState.dispatchOne_taken_dispatch (st st1 : DispatchState) (m : Message)
    (h : st.dispatchOne m = some st1) :
    st1.taken = match dispatch m with
      | none => st.taken
      | some ch => st.taken.put ch m := by
  unfold DispatchState.dispatchOne at h
  cases hd : dispatch m with
  | none =>
    rw [hd] at h
    simp only [Option.some.injEq] at h
    rw [← h]
  | some ch =>
    rw [hd] at h
    simp only at h
    split at h
    · exact absurd h (by simp)
    · cases hr : st.process.receive m with
      | none => rw [hr] at h; exact absurd h (by simp)
      | some r =>
        rw [hr] at h
        simp only [Option.some.injEq] at h
        rw [← h]

/-- An iteration that ends has put the message on the channel of its kind, or
on none when the kind is not 1..4. -/
theorem DispatchState.dispatchOne_taken (st st1 : DispatchState) (m : Message)
    (h : st.dispatchOne m = some st1) :
    st1.taken =
      if m.Header.MessageType = 1 then
        { st.taken with prepareMessagesCh := st.taken.prepareMessagesCh ++ [m] }
      else if m.Header.MessageType = 2 then
        { st.taken with promiseMessagesCh := st.taken.promiseMessagesCh ++ [m] }
      else if m.Header.MessageType = 3 then
        { st.taken with acceptMessagesCh := st.taken.acceptMessagesCh ++ [m] }
      else if m.Header.MessageType = 4 then
        { st.taken with acceptedMessagesCh := st.taken.acceptedMessagesCh ++ [m] }
      else st.taken := by
  rw [DispatchState.dispatchOne_taken_dispatch st st1 m h, dispatch_eq]
  by_cases h1 : m.Header.MessageType = 1
  · rw [if_pos h1, if_pos h1]; rfl
  · rw [if_neg h1, if_neg h1]
    by_cases h2 : m.Header.MessageType = 2
    · rw [if_pos h2, if_pos h2]; rfl
    · rw [if_neg h2, if_neg h2]
      by_cases h3 : m.Header.MessageType = 3
      · rw [if_pos h3, if_pos h3]; rfl
      · rw [if_neg h3, if_neg h3]
        by_cases h4 : m.Header.MessageType = 4
        · rw [if_pos h4, if_pos h4]; rfl
        · rw [if_neg h4, if_neg h4]

/-- An iteration that never ends is the send of a Promise or Accepted on a host
that has no proposer or whose proposer is at the send of the retry signal. -/
theorem DispatchState.dispatchOne_none (st : DispatchState) (m : Message)
    (h : st.dispatchOne m = none) :
    (m.Header.MessageType = 2 ∨ m.Header.MessageType = 4) ∧
      (st.process.proposer = none ∨ st.proposerAtRetrySend = true) := by
  by_cases hk : m.Header.MessageType = 2 ∨ m.Header.MessageType = 4
  · refine ⟨hk, ?_⟩
    by_cases hp : st.process.proposer = none
    · exact Or.inl hp
    · by_cases hr : st.proposerAtRetrySend = true
      · exact Or.inr hr
      · exfalso
        have hs : st.process.proposer.isSome = true := by
          cases hq : st.process.proposer with
          | none => exact absurd hq hp
          | some p => rfl
        obtain ⟨st1, h1⟩ := DispatchState.dispatchOne_some st m
          (fun _ => ⟨hs, by simpa using hr⟩)
        rw [h] at h1
        exact absurd h1 (by simp)
  · exfalso
    obtain ⟨st1, h1⟩ := DispatchState.dispatchOne_some st m (fun hk2 => absurd hk2 hk)
    rw [h] at h1
    exact absurd h1 (by simp)

theorem dispatchLoop_cons_some (st st1 : DispatchState) (m : Message) (rest : List Message)
    (h : st.dispatchOne m = some st1) :
    dispatchLoop st (m :: rest) = dispatchLoop st1 rest := by
  simp [dispatchLoop, h]

theorem dispatchLoop_cons_none (st : DispatchState) (m : Message) (rest : List Message)
    (h : st.dispatchOne m = none) :
    dispatchLoop st (m :: rest) = (st, m :: rest) := by
  simp [dispatchLoop, h]

/-- The dispatch loop over a sequence of messages: the messages are those it
got past followed by those it did not; each channel was given the messages of
its kind among the former, in arrival order; and the first of the latter is a
Promise or Accepted whose send never completes. -/
theorem dispatchLoop_routed (messages : List Message) : ∀ st : DispatchState,
    ∃ routed : List Message,
      messages = routed ++ (dispatchLoop st messages).2 ∧
      (dispatchLoop st messages).1.taken =
        ⟨st.taken.prepareMessagesCh ++ routed.filter (fun m => m.Header.MessageType = 1),
         st.taken.promiseMessagesCh ++ routed.filter (fun m => m.Header.MessageType = 2),
         st.taken.acceptMessagesCh ++ routed.filter (fun m => m.Header.MessageType = 3),
         st.taken.acceptedMessagesCh ++ routed.filter (fun m => m.Header.MessageType = 4)⟩ ∧
      (∀ b pending, (dispatchLoop st messages).2 = b :: pending →
        (b.Header.MessageType = 2 ∨ b.Header.MessageType = 4) ∧
        ((dispatchLoop st messages).1.process.proposer = none ∨
          (dispatchLoop st messages).1.proposerAtRetrySend = true)) := by
  induction messages with
  | nil =>
    intro st
    refine ⟨[], ?_, ?_, ?_⟩
    · simp [dispatchLoop]
    · simp [dispatchLoop]
    · intro b pending h
      simp [dispatchLoop] at h
  | cons m rest ih =>
    intro st
    cases hd : st.dispatchOne m with
    | none =>
      rw [dispatchLoop_cons_none st m rest hd]
      refine ⟨[], ?_, ?_, ?_⟩
      · simp
      · simp
      · intro b pending h
        simp only [List.cons.injEq] at h
        rw [← h.1]
        exact DispatchState.dispatchOne_none st m hd
    | some st1 =>
      rw [dispatchLoop_cons_some st st1 m rest hd]
      obtain ⟨routed, hsplit, htaken, hblock⟩ := ih st1
      have ht := DispatchState.dispatchOne_taken st st1 m hd
      refine ⟨m :: routed, ?_, ?_, hblock⟩
      · rw [List.cons_append, ← hsplit]
      · rw [htaken, ht]
        by_cases h1 : m.Header.MessageType = 1
        · simp [h1]
        · by_cases h2 : m.Header.MessageType = 2
          · simp [h2]
          · by_cases h3 : m.Header.MessageType = 3
            · simp [h3]
            · by_cases h4 : m.Header.MessageType = 4
              · simp [h4]
              · simp [h1, h2, h3, h4]

/-- C18 (counterexample). Host 2 has no proposer. It receives a Promise (kind 2)
and then a Prepare (kind 1), both from host 1. The send of the Promise on the
promise channel, which has capacity 0 and no receiver, never completes: the
dispatch loop does not get past it, the Promise is taken from no channel, and
the Prepare of kind 1 behind it is never put on the prepare queue. -/
theorem C18_promise_without_proposer_blocks_dispatch :
    dispatchLoop ⟨Process.new 2 none, false, Queues.empty, []⟩
        [⟨⟨1, 2, 16⟩, ⟨0, Value.nil⟩⟩, ⟨⟨1, 1, 27⟩, ⟨2, Value.str foo⟩⟩] =
      (⟨Process.new 2 none, false, Queues.empty, []⟩,
        [⟨⟨1, 2, 16⟩, ⟨0, Value.nil⟩⟩, ⟨⟨1, 1, 27⟩, ⟨2, Value.str foo⟩⟩]) ∧
    (dispatchLoop ⟨Process.new 2 none, false, Queues.empty, []⟩
        [⟨⟨1, 2, 16⟩, ⟨0, Value.nil⟩⟩, ⟨⟨1, 1, 27⟩, ⟨2, Value.str foo⟩⟩]).1.taken.prepareMessagesCh
      = [] ∧
    (dispatchLoop ⟨Process.new 2 none, false, Queues.empty, []⟩
        [⟨⟨1, 1, 27⟩, ⟨2, Value.str foo⟩⟩]).1.taken.prepareMessagesCh
      = [⟨⟨1, 1, 27⟩, ⟨2, Value.str foo⟩⟩] := by
  refine ⟨?_, ?_, ?_⟩ <;> decide

/-- C18 (amended). The dispatch loop selects the prepare queue for kind 1, the
promise queue for kind 2, the accept queue for kind 3, the accepted queue for
kind 4 and no queue for any other kind. For an inbound message that is not of
kind 2 or 4, or that arrives while the host has a proposer that is not at the
send of the retry signal, the iteration ends: the message has been put on
exactly the queue of its kind (on none, and so dropped, for another kind) and
the loop goes on to the next message. For every sequence of inbound messages,
each queue has been given the messages of its kind, in arrival order, among
those before the first message whose send never completes, and such a message
is of kind 2 or 4 on a host without proposer or with the proposer at the send
of the retry signal. -/
theorem C18_dispatcher_routing (st : DispatchState) (m : Message) (rest : List Message)
    (hrecv : (m.Header.MessageType = 2 ∨ m.Header.MessageType = 4) →
      st.process.proposer.isSome = true ∧ st.proposerAtRetrySend = false) :
    (dispatch m =
      if m.Header.MessageType = 1 then some Queue.prepareMessagesCh
      else if m.Header.MessageType = 2 then some Queue.promiseMessagesCh
      else if m.Header.MessageType = 3 then some Queue.acceptMessagesCh
      else if m.Header.MessageType = 4 then some Queue.acceptedMessagesCh
      else none) ∧
    (∃ st1, st.dispatchOne m = some st1 ∧
      st1.taken =
        (if m.Header.MessageType = 1 then
          { st.taken with prepareMessagesCh := st.taken.prepareMessagesCh ++ [m] }
        else if m.Header.MessageType = 2 then
          { st.taken with promiseMessagesCh := st.taken.promiseMessagesCh ++ [m] }
        else if m.Header.MessageType = 3 then
          { st.taken with acceptMessagesCh := st.taken.acceptMessagesCh ++ [m] }
        else if m.Header.MessageType = 4 then
          { st.taken with acceptedMessagesCh := st.taken.acceptedMessagesCh ++ [m] }
        else st.taken) ∧
      dispatchLoop st (m :: rest) = dispatchLoop st1 rest) ∧
    (∀ messages : List Message, ∃ routed : List Message,
      messages = routed ++ (dispatchLoop st messages).2 ∧
      (dispatchLoop st messages).1.taken =
        ⟨st.taken.prepareMessagesCh ++ routed.filter (fun m => m.Header.MessageType = 1),
         st.taken.promiseMessagesCh ++ routed.filter (fun m => m.Header.MessageType = 2),
         st.taken.acceptMessagesCh ++ routed.filter (fun m => m.Header.MessageType = 3),
         st.taken.acceptedMessagesCh ++ routed.filter (fun m => m.Header.MessageType = 4)⟩ ∧
      (∀ b pending, (dispatchLoop st messages).2 = b :: pending →
        (b.Header.MessageType = 2 ∨ b.Header.MessageType = 4) ∧
        ((dispatchLoop st messages).1.process.proposer = none ∨
          (dispatchLoop st messages).1.proposerAtRetrySend = true))) := by
  refine ⟨rfl, ?_, fun messages => dispatchLoop_routed messages st⟩
  obtain ⟨st1, h1⟩ := DispatchState.dispatchOne_some st m hrecv
  exact ⟨st1, h1, DispatchState.dispatchOne_taken st st1 m h1,
    dispatchLoop_cons_some st st1 m rest h1⟩

/-- C18 (witness). Host 1 runs a proposer with quorum 2 that is at its select.
A Promise (kind 2) from host 2 is put on the promise queue and on no other,
and the loop goes on to the Prepare behind it. -/
theorem C18_dispatcher_routing_witness :
    ((Process.new 1 (some (1, Value.str foo, [2]))).proposer.isSome = true ∧ false = false) ∧
    ∃ st1,
      DispatchState.dispatchOne
          ⟨Process.new 1 (some (1, Value.str foo, [2])), false, Queues.empty, []⟩
          ⟨⟨2, 2, 16⟩, ⟨0, Value.nil⟩⟩ = some st1 ∧
      st1.taken = ⟨[], [⟨⟨2, 2, 16⟩, ⟨0, Value.nil⟩⟩], [], []⟩ ∧
      dispatchLoop ⟨Process.new 1 (some (1, Value.str foo, [2])), false, Queues.empty, []⟩
          [⟨⟨2, 2, 16⟩, ⟨0, Value.nil⟩⟩, ⟨⟨2, 1, 27⟩, ⟨3, Value.str foo⟩⟩] =
        dispatchLoop st1 [⟨⟨2, 1, 27⟩, ⟨3, Value.str foo⟩⟩] :=
  ⟨by decide,
    (C18_dispatcher_routing
      ⟨Process.new 1 (some (1, Value.str foo, [2])), false, Queues.empty, []⟩
      ⟨⟨2, 2, 16⟩, ⟨0, Value.nil⟩⟩ [⟨⟨2, 1, 27⟩, ⟨3, Value.str foo⟩⟩]
      (fun _ => by decide)).2.1⟩

/-! ## Value adoption in Phase B -/

/-- C20 (failing input). A proposer on host 1 with proposal number 6, value "v"
and quorum 2, 3 takes Promise(5, "x") from host 2 and then Promise(3, "y") from
host 3: the Accept messages it sends carry "y", the value of the Promise
received last, although "x" came with the higher proposal number. -/
theorem C20_last_promise_value_wins :
    (Proposer.handlePromiseMessage
      (Proposer.handlePromiseMessage (NewProposer 1 6 (Value.str [118]) [2, 3] ⟨1⟩)
        ⟨6, 0, Value.nil⟩ ⟨⟨2, PROMISE, 25⟩, ⟨5, Value.str [120]⟩⟩).1
      (Proposer.handlePromiseMessage (NewProposer 1 6 (Value.str [118]) [2, 3] ⟨1⟩)
        ⟨6, 0, Value.nil⟩ ⟨⟨2, PROMISE, 25⟩, ⟨5, Value.str [120]⟩⟩).2.1
      ⟨⟨3, PROMISE, 25⟩, ⟨3, Value.str [121]⟩⟩).2.2 =
    [Effect.send 2 ⟨⟨1, ACCEPT, 0⟩, ⟨6, Value.str [121]⟩⟩,
     Effect.send 3 ⟨⟨1, ACCEPT, 0⟩, ⟨6, Value.str [121]⟩⟩] := by
  decide

/-! ## Quorum derivation -/

theorem mem_hostKeys (count : Nat) (j : Int) : j ∈ hostKeys count ↔ 1 ≤ j ∧ j ≤ count := by
  unfold hostKeys
  simp only [List.mem_map, List.mem_range]
  constructor
  · rintro ⟨a, ha, rfl⟩
    omega
  · intro h
    exact ⟨(j - 1).toNat, by omega, by omega⟩

theorem nodup_hostKeys (count : Nat) : (hostKeys count).Nodup := by
  unfold hostKeys
  apply List.Nodup.map _ (List.nodup_range count)
  intro a b h
  simp only at h
  omega

theorem lookupHost_some (hostRoles : List HostInfo) (id : Int) (info : HostInfo)
    (h : lookupHost hostRoles id = some info) : id ∈ hostKeys hostRoles.length := by
  rw [mem_hostKeys]
  unfold lookupHost at h
  by_cases h1 : id ≥ 1
  · rw [if_pos h1] at h
    have := List.get?_eq_some.mp h
    obtain ⟨hlt, _⟩ := this
    omega
  · rw [if_neg h1] at h
    exact absurd h (by simp)

theorem quorumSelects_count (hostRoles : List HostInfo) (keys : List Int)
    (hkeys : keys.Perm (hostKeys hostRoles.length)) (id j : Int) :
    (keys.filter (quorumSelects hostRoles id)).count j =
      if quorumSelects hostRoles id j = true then 1 else 0 := by
  by_cases hs : quorumSelects hostRoles id j = true
  · rw [if_pos hs, List.count_filter hs, hkeys.count_eq]
    have hmem : j ∈ hostKeys hostRoles.length := by
      unfold quorumSelects at hs
      cases hl : lookupHost hostRoles j with
      | none => rw [hl] at hs; exact absurd hs (by simp)
      | some info => exact lookupHost_some hostRoles j info hl
    exact List.count_eq_one_of_mem (nodup_hostKeys _) hmem
  · rw [if_neg hs]
    apply List.count_eq_zero_of_not_mem
    intro hmem
    exact hs (List.mem_filter.mp hmem).2

theorem quorumInner_eq (hostRoles : List HostInfo) (id proposerID : Int) (keys : List Int) :
    ∀ (quorumMap : Int → List Int) (k : Int),
      quorumInner hostRoles id proposerID quorumMap keys k =
        quorumMap k ++ (if k = proposerID then keys.filter (quorumSelects hostRoles id) else []) := by
  induction keys with
  | nil => intro q k; simp [quorumInner]
  | cons a keys ih =>
    intro q k
    cases hl : lookupHost hostRoles a with
    | none =>
      have hsel : quorumSelects hostRoles id a = false := by simp [quorumSelects, hl]
      simp only [quorumInner, hl, ih, List.filter_cons, hsel]
      simp
    | some info =>
      by_cases hc : id ≠ a ∧ info.Acceptor.length > 0
      · have hsel : quorumSelects hostRoles id a = true := by simp [quorumSelects, hl, hc]
        simp only [quorumInner, hl, if_pos hc, ih, List.filter_cons, hsel]
        by_cases hk : k = proposerID
        · simp [hk]
        · simp [hk]
      · have hsel : quorumSelects hostRoles id a = false := by
          simp only [quorumSelects, hl, decide_eq_false_iff_not]; exact hc
        simp only [quorumInner, hl, if_neg hc, ih, List.filter_cons, hsel]
        simp

theorem quorumProposers_count (hostRoles : List HostInfo) (ord : RangeOrder)
    (hord : ord.valid hostRoles.length) (id k j : Int) (props : List Int) :
    ∀ (quorumMap : Int → List Int) (n : Nat),
      (quorumProposers hostRoles ord id quorumMap n props k).count j =
        (quorumMap k).count j +
          props.count k * (if quorumSelects hostRoles id j = true then 1 else 0) := by
  induction props with
  | nil => intro q n; simp [quorumProposers]
  | cons p props ih =>
    intro q n
    simp only [quorumProposers, ih, quorumInner_eq, List.count_append]
    by_cases hk : k = p
    · subst hk
      simp only [if_true, quorumSelects_count hostRoles _ (hord.2 id n), List.count_cons_self]
      ring
    · rw [if_neg hk, List.count_cons_of_ne hk]
      simp

theorem quorumOuter_count (hostRoles : List HostInfo) (ord : RangeOrder)
    (hord : ord.valid hostRoles.length) (i k j : Int) (info : HostInfo)
    (hi : lookupHost hostRoles i = some info) (hk : info.Proposer.count k = 1)
    (hother : ∀ id other, id ≠ i → lookupHost hostRoles id = some other → k ∉ other.Proposer)
    (keys : List Int) :
    ∀ quorumMap : Int → List Int,
      (quorumOuter hostRoles ord quorumMap keys k).count j =
        (quorumMap k).count j +
          keys.count i * (if quorumSelects hostRoles i j = true then 1 else 0) := by
  induction keys with
  | nil => intro q; simp [quorumOuter]
  | cons id keys ih =>
    intro q
    cases hl : lookupHost hostRoles id with
    | none =>
      have hne : ¬ i = id := by
        intro h; rw [← h, hi] at hl; exact absurd hl (by simp)
      simp only [quorumOuter, hl, ih, List.count_cons_of_ne hne]
    | some other =>
      simp only [quorumOuter, hl, ih, quorumProposers_count hostRoles ord hord]
      by_cases hid : id = i
      · subst hid
        have : other = info := by rw [hi] at hl; exact (Option.some.inj hl).symm
        subst this
        rw [hk, List.count_cons_self]
        ring
      · have h0 : other.Proposer.count k = 0 :=
          List.count_eq_zero_of_not_mem (hother id other hid hl)
        rw [h0, List.count_cons_of_ne (fun h => hid h.symm)]
        ring

theorem quorumSelects_iff (hostRoles : List HostInfo) (i j : Int) :
    quorumSelects hostRoles i j = true ↔
      (j ≠ i ∧ ∃ aj, lookupHost hostRoles j = some aj ∧ aj.Acceptor ≠ []) := by
  unfold quorumSelects
  cases hl : lookupHost hostRoles j with
  | none => simp
  | some aj =>
    simp only [decide_eq_true_eq, Option.some.injEq, exists_eq_left', gt_iff_lt,
      List.length_pos, ne_eq]
    constructor
    · rintro ⟨h1, h2⟩; exact ⟨fun h => h1 h.symm, h2⟩
    · rintro ⟨h1, h2⟩; exact ⟨fun h => h1 h.symm, h2⟩

theorem ReadHostfile_quorum_count (lines : List (List Char)) (ord : RangeOrder)
    (hostRoles : List HostInfo) (quorumMap : Int → List Int) (i k : Int) (info : HostInfo)
    (hread : ReadHostfile lines ord = some (hostRoles, quorumMap))
    (hord : ord.valid hostRoles.length)
    (hi : lookupHost hostRoles i = some info) (hk : info.Proposer.count k = 1)
    (hother : ∀ id other, id ≠ i → lookupHost hostRoles id = some other → k ∉ other.Proposer)
    (j : Int) :
    (quorumMap k).count j =
      if j ≠ i ∧ ∃ aj, lookupHost hostRoles j = some aj ∧ aj.Acceptor ≠ [] then 1 else 0 := by
  unfold ReadHostfile at hread
  cases hp : parseLines lines with
  | none => rw [hp] at hread; exact absurd hread (by simp)
  | some hr =>
    rw [hp] at hread
    simp only [Option.some.injEq, Prod.mk.injEq] at hread
    obtain ⟨h1, h2⟩ := hread
    subst h1
    rw [← h2, quorumOuter_count hr ord hord i k j info hi hk hother]
    have hc : ord.outer.count i = 1 := by
      rw [hord.1.count_eq]
      exact List.count_eq_one_of_mem (nodup_hostKeys _) (lookupHost_some hr i info hi)
    rw [hc]
    by_cases hs : quorumSelects hr i j = true
    · rw [if_pos hs, if_pos ((quorumSelects_iff hr i j).mp hs)]; simp
    · rw [if_neg hs, if_neg (fun h => hs ((quorumSelects_iff hr i j).mpr h))]; simp

/-! ## Role tokens -/

theorem splitLoop_no_match (h : Char) (t : List Char) (s : List Char) :
    ∀ cur : List Char, (∀ c ∈ s, c ≠ h) → splitLoop (h :: t) s cur 0 = [cur.reverse ++ s] := by
  induction s with
  | nil => intro cur _; simp [splitLoop]
  | cons c cs ih =>
    intro cur hne
    have hc : c ≠ h := hne c (by simp)
    have hp : (h :: t).isPrefixOf (c :: cs) = false := by
      simp [List.isPrefixOf, Ne.symm hc]
    rw [splitLoop, if_neg (by simp [hp])]
    rw [ih (c :: cur) (fun d hd => hne d (by simp [hd]))]
    simp

theorem digit_ne (c : Char) (hd : '0' ≤ c ∧ c ≤ '9') :
    c ≠ 'p' ∧ c ≠ 'a' ∧ c ≠ 'l' := by
  have h9 : c.val ≤ ('9' : Char).val := hd.2
  refine ⟨?_, ?_, ?_⟩ <;> (intro h; subst h; exact absurd h9 (by decide))

theorem stringsSplit_proposer_token (ds : List Char) (hd : ∀ c ∈ ds, '0' ≤ c ∧ c ≤ '9') :
    stringsSplit (ProposerRole ++ ds) ProposerRole = [[], ds] := by
  have h := splitLoop_no_match 'p' "roposer".toList ds [] (fun c hc => (digit_ne c (hd c hc)).1)
  simp only [List.reverse_nil, List.nil_append] at h
  simp [stringsSplit, ProposerRole, splitLoop, List.isPrefixOf]
  exact h

theorem stringsSplit_acceptor_token (ds : List Char) (hd : ∀ c ∈ ds, '0' ≤ c ∧ c ≤ '9') :
    stringsSplit (AcceptorRole ++ ds) ProposerRole = [AcceptorRole ++ ds] ∧
    stringsSplit (AcceptorRole ++ ds) AcceptorRole = [[], ds] := by
  have hp := splitLoop_no_match 'p' "roposer".toList ds "acceptor".toList.reverse
    (fun c hc => (digit_ne c (hd c hc)).1)
  have ha := splitLoop_no_match 'a' "cceptor".toList ds [] (fun c hc => (digit_ne c (hd c hc)).2.1)
  simp only [List.reverse_nil, List.nil_append, List.reverse_reverse] at hp ha
  constructor
  · simpa [stringsSplit, ProposerRole, AcceptorRole, splitLoop, List.isPrefixOf] using hp
  · simp [stringsSplit, AcceptorRole, splitLoop, List.isPrefixOf]
    exact ha

theorem stringsSplit_learner_token (ds : List Char) (hd : ∀ c ∈ ds, '0' ≤ c ∧ c ≤ '9') :
    stringsSplit (LearnerRole ++ ds) ProposerRole = [LearnerRole ++ ds] ∧
    stringsSplit (LearnerRole ++ ds) AcceptorRole = [LearnerRole ++ ds] ∧
    stringsSplit (LearnerRole ++ ds) LearnerRole = [[], ds] := by
  have hp := splitLoop_no_match 'p' "roposer".toList ds "learner".toList.reverse
    (fun c hc => (digit_ne c (hd c hc)).1)
  have ha := splitLoop_no_match 'a' "cceptor".toList ds "learner".toList.reverse
    (fun c hc => (digit_ne c (hd c hc)).2.1)
  have hl := splitLoop_no_match 'l' "earner".toList ds [] (fun c hc => (digit_ne c (hd c hc)).2.2)
  simp only [List.reverse_nil, List.nil_append, List.reverse_reverse] at hp ha hl
  refine ⟨?_, ?_, ?_⟩
  · simpa [stringsSplit, ProposerRole, LearnerRole, splitLoop, List.isPrefixOf] using hp
  · simpa [stringsSplit, AcceptorRole, LearnerRole, splitLoop, List.isPrefixOf] using ha
  · simp [stringsSplit, LearnerRole, splitLoop, List.isPrefixOf]
    exact hl

/-- What the role loop does with the well-formed tokens `proposer<N>`,
`acceptor<N>` and `learner<N>`, `N` a string of decimal digits with value `num`:
a nonzero `num` is appended to the list of its role, a zero is ignored. -/
theorem parseRole_tokens (hostInfo : HostInfo) (ds : List Char) (num : Int)
    (hd : ∀ c ∈ ds, '0' ≤ c ∧ c ≤ '9') (hn : ParseInt ds = some num) :
    parseRole hostInfo (ProposerRole ++ ds) =
      some (if num ≠ 0 then { hostInfo with Proposer := hostInfo.Proposer ++ [num] }
            else hostInfo) ∧
    parseRole hostInfo (AcceptorRole ++ ds) =
      some (if num ≠ 0 then { hostInfo with Acceptor := hostInfo.Acceptor ++ [num] }
            else hostInfo) ∧
    parseRole hostInfo (LearnerRole ++ ds) =
      some (if num ≠ 0 then { hostInfo with Learner := hostInfo.Learner ++ [num] }
            else hostInfo) := by
  obtain ⟨a1, a2⟩ := stringsSplit_acceptor_token ds hd
  obtain ⟨l1, l2, l3⟩ := stringsSplit_learner_token ds hd
  refine ⟨?_, ?_, ?_⟩
  · unfold parseRole
    rw [stringsSplit_proposer_token ds hd]
    simp only [hn]
    split <;> simp_all
  · unfold parseRole
    rw [a1, a2]
    simp only [hn]
    split <;> simp_all
  · unfold parseRole
    rw [l1, l2, l3]
    simp only [hn]
    split <;> simp_all

/-- C19 (as stated, refuted). In the hostfile `hostA:proposer1,acceptor1` /
`hostB:proposer1,acceptor1` line 1 declares proposer 1, and the quorum
`ReadHostfile` returns for 1 is `[2, 1]`: it contains PeerId 1. -/
theorem C19_shared_number_quorum_contains_self :
    (ReadHostfile sharedNumberHostfile (RangeOrder.lineOrder 2)).map
        (fun r => (r.1.map (fun info => info.Proposer), r.2 1)) = some ([[1], [1]], [2, 1]) ∧
    (1 : Int) ∈ ([2, 1] : List Int) := by
  constructor <;> decide

/-- C19 (amended). Let `ReadHostfile` return `hostRoles` and `quorumMap` for a
hostfile, under any order of the map iterations.  If line `i` declares exactly
one proposer role with the nonzero number `k` and no other line declares a
proposer with number `k`, then the quorum for `k` contains each PeerId `j ≠ i`
whose line lists an acceptor role with nonzero number exactly once, and no other
PeerId. -/
theorem C19_quorum_of_unique_proposer (lines : List (List Char)) (ord : RangeOrder)
    (hostRoles : List HostInfo) (quorumMap : Int → List Int) (i k : Int) (info : HostInfo)
    (hread : ReadHostfile lines ord = some (hostRoles, quorumMap))
    (hord : ord.valid hostRoles.length)
    (hi : lookupHost hostRoles i = some info) (hk : info.Proposer.count k = 1)
    (hother : ∀ id other, id ≠ i → lookupHost hostRoles id = some other → k ∉ other.Proposer)
    (j : Int) :
    (quorumMap k).count j =
      if j ≠ i ∧ ∃ aj, lookupHost hostRoles j = some aj ∧ aj.Acceptor ≠ [] then 1 else 0 :=
  ReadHostfile_quorum_count lines ord hostRoles quorumMap i k info hread hord hi hk hother j

theorem scenario_parseLines : parseLines scenarioHostfile = some scenarioHostRoles := by
  decide

theorem scenario_lookupHost (id : Int) (other : HostInfo)
    (h : lookupHost scenarioHostRoles id = some other) :
    (id = 1 ∧ other = ⟨"hostA".toList, [1], [1], []⟩) ∨
    (id = 2 ∧ other = ⟨"hostB".toList, [], [1], []⟩) ∨
    (id = 3 ∧ other = ⟨"hostC".toList, [], [1], []⟩) := by
  have hm := (mem_hostKeys _ _).mp (lookupHost_some _ _ _ h)
  have h3 : ((scenarioHostRoles.length : Nat) : Int) = 3 := rfl
  rw [h3] at hm
  have : id = 1 ∨ id = 2 ∨ id = 3 := by omega
  rcases this with rfl | rfl | rfl
  · left; exact ⟨rfl, (Option.some.inj h).symm⟩
  · right; left; exact ⟨rfl, (Option.some.inj h).symm⟩
  · right; right; exact ⟨rfl, (Option.some.inj h).symm⟩

theorem scenario_other_lines (id : Int) (other : HostInfo) (hid : id ≠ 1)
    (h : lookupHost scenarioHostRoles id = some other) : (1 : Int) ∉ other.Proposer := by
  rcases scenario_lookupHost id other h with ⟨h1, _⟩ | ⟨_, h2⟩ | ⟨_, h2⟩
  · exact absurd h1 hid
  · rw [h2]; simp
  · rw [h2]; simp

/-- C19 (amended) at the hostfile of the scenario, in line order: the quorum of
proposer 1, declared on line 1 only, holds PeerId 2 once and PeerId 1 not at all. -/
theorem C19_quorum_of_unique_proposer_witness :
    (quorumOuter scenarioHostRoles (RangeOrder.lineOrder 3) (fun _ => [])
        (RangeOrder.lineOrder 3).outer 1).count 2 = 1 ∧
    (quorumOuter scenarioHostRoles (RangeOrder.lineOrder 3) (fun _ => [])
        (RangeOrder.lineOrder 3).outer 1).count 1 = 0 :=
  ⟨(C19_quorum_of_unique_proposer scenarioHostfile (RangeOrder.lineOrder 3) scenarioHostRoles _
      1 1 ⟨"hostA".toList, [1], [1], []⟩
      (by unfold ReadHostfile; rw [scenario_parseLines])
      ⟨List.Perm.refl _, fun _ _ => List.Perm.refl _⟩ rfl (by decide) scenario_other_lines
      2).trans (by decide),
   (C19_quorum_of_unique_proposer scenarioHostfile (RangeOrder.lineOrder 3) scenarioHostRoles _
      1 1 ⟨"hostA".toList, [1], [1], []⟩
      (by unfold ReadHostfile; rw [scenario_parseLines])
      ⟨List.Perm.refl _, fun _ _ => List.Perm.refl _⟩ rfl (by decide) scenario_other_lines
      1).trans (by decide)⟩

/-! ## The scenario "single proposer, two acceptors, no contention" -/

theorem list_of_counts_two_three (l : List Int)
    (h : ∀ j : Int, l.count j = if j = 2 ∨ j = 3 then 1 else 0) : l = [2, 3] ∨ l = [3, 2] := by
  have hmem : ∀ j ∈ l, j = 2 ∨ j = 3 := by
    intro j hj
    by_contra hne
    have := h j
    rw [if_neg hne] at this
    exact (List.count_pos_iff.mpr hj).ne' this
  match l, h, hmem with
  | [], h, _ => exact absurd (h 2) (by simp)
  | [a], h, hm =>
    rcases hm a (by simp) with rfl | rfl
    · exact absurd (h 3) (by simp)
    · exact absurd (h 2) (by simp)
  | [a, b], h, hm =>
    rcases hm a (by simp) with rfl | rfl <;> rcases hm b (by simp) with rfl | rfl
    · exact absurd (h 2) (by simp)
    · left; rfl
    · right; rfl
    · exact absurd (h 3) (by simp)
  | a :: b :: c :: rest, h, hm =>
    exfalso
    have h2 := h 2
    have h3 := h 3
    rcases hm a (by simp) with rfl | rfl <;> rcases hm b (by simp) with rfl | rfl <;>
      rcases hm c (by simp) with rfl | rfl <;>
      simp [List.count_cons] at h2 h3

theorem scenario_ReadHostfile (ord : RangeOrder) (hord : ord.valid 3) :
    ∃ quorumMap, ReadHostfile scenarioHostfile ord = some (scenarioHostRoles, quorumMap) ∧
      (quorumMap 1 = [2, 3] ∨ quorumMap 1 = [3, 2]) := by
  refine ⟨_, by unfold ReadHostfile; rw [scenario_parseLines], ?_⟩
  apply list_of_counts_two_three
  intro j
  rw [ReadHostfile_quorum_count scenarioHostfile ord scenarioHostRoles _ 1 1
    ⟨"hostA".toList, [1], [1], []⟩ (by unfold ReadHostfile; rw [scenario_parseLines]) hord rfl
    (by decide) scenario_other_lines j]
  by_cases hj : j = 2 ∨ j = 3
  · rw [if_pos hj, if_pos]
    rcases hj with rfl | rfl
    · exact ⟨by decide, _, rfl, by decide⟩
    · exact ⟨by decide, _, rfl, by decide⟩
  · rw [if_neg hj, if_neg]
    rintro ⟨h1, aj, hl, _⟩
    rcases scenario_lookupHost j aj hl with ⟨h, _⟩ | ⟨h, _⟩ | ⟨h, _⟩
    · exact h1 h
    · exact hj (Or.inl h)
    · exact hj (Or.inr h)

theorem scenario_mainWorld (ord : Int → RangeOrder) (hord : ∀ id, (ord id).valid 3) :
    ∃ q : List Int, (q = [2, 3] ∨ q = [3, 2]) ∧
      mainWorld scenarioHostfile ord (fun _ => foo) = some (scenarioWorld q) := by
  obtain ⟨qm1, h1, hq⟩ := scenario_ReadHostfile (ord 1) (hord 1)
  obtain ⟨qm2, h2, _⟩ := scenario_ReadHostfile (ord 2) (hord 2)
  obtain ⟨qm3, h3, _⟩ := scenario_ReadHostfile (ord 3) (hord 3)
  refine ⟨qm1 1, hq, ?_⟩
  have hk : hostKeys scenarioHostfile.length = [1, 2, 3] := by decide
  unfold mainWorld
  rw [hk]
  simp only [mainProcesses, h1, h2, h3]
  rfl

theorem scenario_run (q : List Int) (hq : q = [2, 3] ∨ q = [3, 2]) (x y : Int)
    (hxy : (x = 2 ∧ y = 3) ∨ (x = 3 ∧ y = 2)) :
    (World.run (scenarioWorld q) ((scenarioSchedule x y).take 1)).map (fun w => w.network) =
      some (q.map (fun t => (t, paxosMessage 1 PREPARE 2 (Value.str foo)))) ∧
    (World.run (scenarioWorld q) ((scenarioSchedule x y).take 3)).map (fun w => w.network) =
      some [(1, paxosMessage x PROMISE 0 Value.nil), (1, paxosMessage y PROMISE 0 Value.nil)] ∧
    (World.run (scenarioWorld q) ((scenarioSchedule x y).take 4)).map (fun w => w.network) =
      some [(1, paxosMessage y PROMISE 0 Value.nil)] ∧
    (World.run (scenarioWorld q) ((scenarioSchedule x y).take 5)).map (fun w => w.network) =
      some (q.map (fun t => (t, paxosMessage 1 ACCEPT 2 (Value.str foo)))) ∧
    (World.run (scenarioWorld q) ((scenarioSchedule x y).take 7)).map (fun w => w.network) =
      some [(1, paxosMessage x ACCEPTED 2 Value.nil), (1, paxosMessage y ACCEPTED 2 Value.nil)] ∧
    (World.run (scenarioWorld q) ((scenarioSchedule x y).take 8)).map
        (fun w => (w.network, w.chosen)) =
      some ([(1, paxosMessage y ACCEPTED 2 Value.nil)], []) ∧
    (World.run (scenarioWorld q) (scenarioSchedule x y)).map (fun w => (w.network, w.chosen)) =
      some ([], [(1, Value.str foo)]) := by
  rcases hq with rfl | rfl <;> rcases hxy with ⟨rfl, rfl⟩ | ⟨rfl, rfl⟩ <;>
    refine ⟨?_, ?_, ?_, ?_, ?_, ?_, ?_⟩ <;> decide

/-- C11 (as stated, refuted). In the scenario (hostfile read in line order,
value "foo"), the messages hostA sends on the start signal are Prepare (kind 1)
messages to hosts 2 and 3 with proposal number 2; none carries proposal
number 1. -/
theorem C11_prepare_carries_two_not_one :
    ((mainWorld scenarioHostfile (fun _ => RangeOrder.lineOrder 3) (fun _ => foo)).bind
        (fun w => World.run w [Action.start 1])).map
      (fun w => w.network.map (fun e => (e.1, e.2.Header.MessageType, e.2.Payload.Proposal))) =
      some [(2, 1, 2), (3, 1, 2)] ∧
    ((mainWorld scenarioHostfile (fun _ => RangeOrder.lineOrder 3) (fun _ => foo)).bind
        (fun w => World.run w [Action.start 1])).map
      (fun w => w.network.all (fun e => decide (e.2.Payload.Proposal ≠ 1))) = some true := by
  constructor <;> decide

/-- C11 (amended). With the hostfile `hostA:proposer1,acceptor1` /
`hostB:acceptor1` / `hostC:acceptor1` and proposer value "foo", under any order
of the map iterations in `ReadHostfile`, hostA gets the quorum of hosts 2 and 3
(in one of the two orders), and in the run in which the two acceptors are served
in either order: on the start signal hostA sends Prepare(2, "foo") to both; the
acceptors answer Promise(0, Nil); after the first Promise hostA sends nothing,
after the second it sends Accept(2, "foo") to both; the acceptors answer
Accepted(2, Nil); after the first Accepted hostA emits nothing, after the second
it emits `chose` with value "foo", and no message is left. -/
theorem C11_scenario (ord : Int → RangeOrder) (hord : ∀ id, (ord id).valid 3) :
    ∃ q : List Int, (q = [2, 3] ∨ q = [3, 2]) ∧
      mainWorld scenarioHostfile ord (fun _ => foo) = some (scenarioWorld q) ∧
      ∀ x y : Int, ((x = 2 ∧ y = 3) ∨ (x = 3 ∧ y = 2)) →
        (World.run (scenarioWorld q) ((scenarioSchedule x y).take 1)).map (fun w => w.network) =
          some (q.map (fun t => (t, paxosMessage 1 PREPARE 2 (Value.str foo)))) ∧
        (World.run (scenarioWorld q) ((scenarioSchedule x y).take 3)).map (fun w => w.network) =
          some [(1, paxosMessage x PROMISE 0 Value.nil),
                (1, paxosMessage y PROMISE 0 Value.nil)] ∧
        (World.run (scenarioWorld q) ((scenarioSchedule x y).take 4)).map (fun w => w.network) =
          some [(1, paxosMessage y PROMISE 0 Value.nil)] ∧
        (World.run (scenarioWorld q) ((scenarioSchedule x y).take 5)).map (fun w => w.network) =
          some (q.map (fun t => (t, paxosMessage 1 ACCEPT 2 (Value.str foo)))) ∧
        (World.run (scenarioWorld q) ((scenarioSchedule x y).take 7)).map (fun w => w.network) =
          some [(1, paxosMessage x ACCEPTED 2 Value.nil),
                (1, paxosMessage y ACCEPTED 2 Value.nil)] ∧
        (World.run (scenarioWorld q) ((scenarioSchedule x y).take 8)).map
            (fun w => (w.network, w.chosen)) =
          some ([(1, paxosMessage y ACCEPTED 2 Value.nil)], []) ∧
        (World.run (scenarioWorld q) (scenarioSchedule x y)).map
            (fun w => (w.network, w.chosen)) =
          some ([], [(1, Value.str foo)]) := by
  obtain ⟨q, hq, hw⟩ := scenario_mainWorld ord hord
  exact ⟨q, hq, hw, fun x y hxy => scenario_run q hq x y hxy⟩

/-- C11 (amended) with every map iteration in line order: the quorum of hostA
is one of the two orders of hosts 2 and 3 and the world is the one of the
scenario. -/
theorem C11_scenario_witness :
    (∀ id : Int, ((fun _ => RangeOrder.lineOrder 3) id : RangeOrder).valid 3) ∧
    ∃ q : List Int, (q = [2, 3] ∨ q = [3, 2]) ∧
      mainWorld scenarioHostfile (fun _ => RangeOrder.lineOrder 3) (fun _ => foo) =
        some (scenarioWorld q) :=
  ⟨fun _ => ⟨List.Perm.refl _, fun _ _ => List.Perm.refl _⟩,
   (C11_scenario (fun _ => RangeOrder.lineOrder 3)
      (fun _ => ⟨List.Perm.refl _, fun _ _ => List.Perm.refl _⟩)).imp
     (fun _ h => ⟨h.1, h.2.1⟩)⟩

/-! ## Proposal numbers at a retry -/

/-- C21 (as stated, refuted). A proposer with `proposal_number = 2^63 - 1` and
`min_proposal_seen = 5` runs `sendProposal`: the new `proposal_number` is
`-2^63`, below the old one and below `min_proposal_seen`, and the Prepare it
sends carries that number. -/
theorem C21_proposal_number_wraps :
    (Proposer.sendProposal
        { NewProposer 1 (2 ^ 63 - 1) (Value.str [97]) [2] ⟨1⟩ with minProposalNumber := 5 }
        NewStateManager).1.proposalNumber = -(2 : Int) ^ 63 ∧
    ¬ ((Proposer.sendProposal
        { NewProposer 1 (2 ^ 63 - 1) (Value.str [97]) [2] ⟨1⟩ with minProposalNumber := 5 }
        NewStateManager).1.proposalNumber > 2 ^ 63 - 1) ∧
    ¬ ((Proposer.sendProposal
        { NewProposer 1 (2 ^ 63 - 1) (Value.str [97]) [2] ⟨1⟩ with minProposalNumber := 5 }
        NewStateManager).1.proposalNumber > 5) ∧
    (Proposer.sendProposal
        { NewProposer 1 (2 ^ 63 - 1) (Value.str [97]) [2] ⟨1⟩ with minProposalNumber := 5 }
        NewStateManager).2.2 =
      [Effect.send 2 ⟨⟨1, PREPARE, 0⟩, ⟨-(2 : Int) ^ 63, Value.str [97]⟩⟩] := by
  refine ⟨?_, ?_, ?_, ?_⟩ <;> decide

/-- C21 (amended). For every proposer state whose `proposal_number` is a signed
64-bit value and whose maximum of `proposal_number` and `min_proposal_seen` is
below `2^63 - 1` (and whose quorum has a Go `int` length), after `sendProposal` the `proposal_number`
is strictly greater than its value before the call and strictly greater than
`min_proposal_seen`, and every message sent is a Prepare carrying that number. -/
theorem C21_retry_number_strictly_higher (p : Proposer) (s : StateManager)
    (hq : (p.quorum.length : Int) < (2 : Int) ^ 63)
    (hn : isInt64 p.proposalNumber)
    (hmax : max p.proposalNumber p.minProposalNumber < (2 : Int) ^ 63 - 1) :
    (p.sendProposal s).1.proposalNumber > p.proposalNumber ∧
    (p.sendProposal s).1.proposalNumber > p.minProposalNumber ∧
    ∀ e ∈ (p.sendProposal s).2.2, ∃ t v,
      e = Effect.send t ⟨⟨p.tcpCommunicator.selfId, PREPARE, 0⟩,
        ⟨(p.sendProposal s).1.proposalNumber, v⟩⟩ := by
  have hlow : -(2 : Int) ^ 63 ≤ max p.proposalNumber p.minProposalNumber :=
    le_trans hn.1 (le_max_left _ _)
  have hadd := add64_one (max p.proposalNumber p.minProposalNumber) hlow (by omega)
  rw [Proposer.sendProposal_eq p s hq, hadd]
  refine ⟨?_, ?_, ?_⟩
  · have := le_max_left p.proposalNumber p.minProposalNumber
    simp only; omega
  · have := le_max_right p.proposalNumber p.minProposalNumber
    simp only; omega
  · intro e he
    simp only [List.mem_map] at he
    obtain ⟨t, _, rfl⟩ := he
    exact ⟨t, _, rfl⟩

/-- C21 (amended) at the proposer of the scenario: seed 1, nothing seen yet. -/
theorem C21_retry_number_strictly_higher_witness :
    (NewProposer 1 1 (Value.str [102, 111, 111]) [2, 3] ⟨1⟩).sendProposal
        NewStateManager |>.1.proposalNumber > 1 :=
  (C21_retry_number_strictly_higher (NewProposer 1 1 (Value.str [102, 111, 111]) [2, 3] ⟨1⟩)
    NewStateManager (by decide) (by decide) (by decide)).1

/-! ## The value check of Phase C -/

theorem Value.goEq_nil (v : Value) : Value.goEq Value.nil v = v.isNil := by
  cases v <;> rfl

theorem Proposer.handleAcceptedMessage_nil (p : Proposer) (s : StateManager) (message : Message)
    (hv : message.Payload.Value = Value.nil) :
    p.handleAcceptedMessage s message =
      ({ (p.handleAcceptedMessageNoCheck s message).1 with acceptedValue := Value.nil },
       (p.handleAcceptedMessageNoCheck s message).2) := by
  unfold Proposer.handleAcceptedMessage Proposer.handleAcceptedMessageNoCheck
  rw [hv]
  by_cases hp : message.Payload.Proposal > p.minProposalNumber <;>
  by_cases ha : p.acceptedValue = Value.nil <;>
  by_cases hn : add64 p.acceptResponses 1 = (p.quorum.length : Int) <;>
  by_cases hl1 : message.Payload.Proposal ≤ p.proposalNumber <;>
  by_cases hl2 : p.minProposalNumber ≤ p.proposalNumber <;>
  simp [hp, ha, hn, hl1, hl2, Value.goEq_nil, Value.isNil_eq]

/-- C22 (as stated, refuted). The proposer of host 1 holds the adopted value
"x" and takes Accepted(2, Nil): `handleAcceptedMessage` leaves `adopted_value`
Nil, the handler without the check leaves it "x"; the resulting proposer states
differ. -/
theorem C22_check_clears_adopted_value :
    (Proposer.handleAcceptedMessage
        { NewProposer 1 2 (Value.str [97]) [2] ⟨1⟩ with acceptedValue := Value.str [120] }
        ⟨2, 2, Value.str [120]⟩ ⟨⟨2, ACCEPTED, 16⟩, ⟨2, Value.nil⟩⟩).1.acceptedValue = Value.nil ∧
    (Proposer.handleAcceptedMessageNoCheck
        { NewProposer 1 2 (Value.str [97]) [2] ⟨1⟩ with acceptedValue := Value.str [120] }
        ⟨2, 2, Value.str [120]⟩ ⟨⟨2, ACCEPTED, 16⟩, ⟨2, Value.nil⟩⟩).1.acceptedValue =
      Value.str [120] ∧
    Proposer.handleAcceptedMessage
        { NewProposer 1 2 (Value.str [97]) [2] ⟨1⟩ with acceptedValue := Value.str [120] }
        ⟨2, 2, Value.str [120]⟩ ⟨⟨2, ACCEPTED, 16⟩, ⟨2, Value.nil⟩⟩ ≠
      Proposer.handleAcceptedMessageNoCheck
        { NewProposer 1 2 (Value.str [97]) [2] ⟨1⟩ with acceptedValue := Value.str [120] }
        ⟨2, 2, Value.str [120]⟩ ⟨⟨2, ACCEPTED, 16⟩, ⟨2, Value.nil⟩⟩ := by
  refine ⟨?_, ?_, ?_⟩ <;> decide

/-- C22 (amended). For every proposer state and every Accepted message whose
value is Nil, `handleAcceptedMessage` produces the same outputs as the handler
without the check, and the same resulting proposer state except that
`adopted_value` is Nil afterwards; the two results are equal when
`adopted_value` was Nil before. -/
theorem C22_check_only_clears_adopted_value (p : Proposer) (s : StateManager)
    (message : Message) (hv : message.Payload.Value = Value.nil) :
    p.handleAcceptedMessage s message =
      ({ (p.handleAcceptedMessageNoCheck s message).1 with acceptedValue := Value.nil },
       (p.handleAcceptedMessageNoCheck s message).2) ∧
    (p.acceptedValue = Value.nil →
      p.handleAcceptedMessage s message = p.handleAcceptedMessageNoCheck s message) := by
  refine ⟨Proposer.handleAcceptedMessage_nil p s message hv, ?_⟩
  intro ha
  rw [Proposer.handleAcceptedMessage_nil p s message hv]
  unfold Proposer.handleAcceptedMessageNoCheck
  by_cases hp : message.Payload.Proposal > p.minProposalNumber <;>
  by_cases hn : add64 p.acceptResponses 1 = (p.quorum.length : Int) <;>
  by_cases hl1 : message.Payload.Proposal ≤ p.proposalNumber <;>
  by_cases hl2 : p.minProposalNumber ≤ p.proposalNumber <;>
  simp [hp, ha, hn, hl1, hl2]

/-- C22 (amended) at a proposer without adopted value taking Accepted(2, Nil). -/
theorem C22_check_only_clears_adopted_value_witness :
    Proposer.handleAcceptedMessage (NewProposer 1 2 (Value.str [97]) [2] ⟨1⟩)
        ⟨2, 2, Value.str [97]⟩ ⟨⟨2, ACCEPTED, 16⟩, ⟨2, Value.nil⟩⟩ =
      Proposer.handleAcceptedMessageNoCheck (NewProposer 1 2 (Value.str [97]) [2] ⟨1⟩)
        ⟨2, 2, Value.str [97]⟩ ⟨⟨2, ACCEPTED, 16⟩, ⟨2, Value.nil⟩⟩ :=
  (C22_check_only_clears_adopted_value (NewProposer 1 2 (Value.str [97]) [2] ⟨1⟩)
    ⟨2, 2, Value.str [97]⟩ ⟨⟨2, ACCEPTED, 16⟩, ⟨2, Value.nil⟩⟩ rfl).2 rfl

/-! ## The retry signal -/

/-- C24 (failing input). The only proposer of host 1 (proposal number 2, quorum
`[2]`) takes Accepted(3, Nil): `handleAcceptedMessage` signals a retry.  The
channel has capacity 0, and with the proposer at its own send no step of the
channel is possible, so every state reachable from there is that same state:
the send never completes and Phase A is not run again.  With capacity 1 the
send would complete. -/
theorem C24_retry_signal_blocks :
    (Proposer.handleAcceptedMessage (NewProposer 1 2 (Value.str [97]) [2] ⟨1⟩)
        ⟨2, 2, Value.str [97]⟩ ⟨⟨2, ACCEPTED, 16⟩, ⟨3, Value.nil⟩⟩).2 = [Effect.retry] ∧
    sendProposalChCapacity = 0 ∧
    preemptedSingleProposer.next = [] ∧
    (∀ n, SignalState.reach n preemptedSingleProposer = [preemptedSingleProposer]) ∧
    ({ preemptedSingleProposer with capacity := 1 } : SignalState).next =
      [{ capacity := 1, buffered := 1, startSender := false, loops := [LoopState.atSelect] }] := by
  refine ⟨by decide, rfl, by decide, ?_, by decide⟩
  intro n
  cases n with
  | zero => rfl
  | succ n =>
    have h : preemptedSingleProposer.next = [] := by decide
    simp [SignalState.reach, h]

/-! ## Frames on a connection -/

theorem Value.roundTrips_isVariant (v : Value) (h : v.roundTrips) : v.isVariant = true := by
  cases v <;> simp_all [Value.roundTrips, Value.isVariant]

theorem readAndParseMessage_frame (m : Message) (hm : m.framable) (frame rest : List Byte)
    (conn : Conn) (hf : ConvertToBinary m = Except.ok frame) (hc : conn.flatten = frame ++ rest) :
    ∃ conn1, readAndParseMessage conn = (GoResult.ok m.withPayloadSize, conn1) ∧
      conn1.flatten = rest := by
  obtain ⟨hs, hk, hp, hv, hsz⟩ := hm
  have hsz : specPayloadSize m.Payload.Value ≤ 2 ^ 48 := hsz
  obtain ⟨body, hbody, hlen⟩ := encodeValue_length m.Payload.Value (Value.roundTrips_isVariant _ hv)
  have hfe := ConvertToBinary_eq m body hbody
  rw [hlen] at hfe
  obtain ⟨data, hd1, hd2⟩ := ConvertToBinary_roundTrips m hs hk hp hv
  have hdata : data = frame := by
    rw [hf] at hd1; exact (Except.ok.inj hd1).symm
  subst hdata
  have hframe : data = putInt64 m.Header.SenderID ++ putInt64 m.Header.MessageType ++
      putInt64 (specPayloadSize m.Payload.Value) ++ (putInt64 m.Payload.Proposal ++ body) := by
    rw [hf] at hfe; exact Except.ok.inj hfe
  set S := specPayloadSize m.Payload.Value with hS
  have hS0 : 8 ≤ S := by omega
  have hSint : isInt64 S := isInt64_small _ (by omega) (by omega)
  have hplen : ((putInt64 m.Payload.Proposal ++ body).length : Int) = S := by
    simp only [List.length_append, putInt64_length, Nat.cast_add, Nat.cast_ofNat]; omega
  have hhead : (putInt64 m.Header.SenderID ++ putInt64 m.Header.MessageType ++
      putInt64 S).length = 24 := by
    simp [putInt64_length]
  have hdlen : (data.length : Int) = 24 + S := by
    rw [hframe, List.length_append, hhead]; push_cast; omega
  generalize hb : conn.flatten = b at hc
  have hbform : b = putInt64 m.Header.SenderID ++ putInt64 m.Header.MessageType ++
      putInt64 S ++ ((putInt64 m.Payload.Proposal ++ body) ++ rest) := by
    rw [hc, hframe, List.append_assoc]
  have h24 : 24 ≤ b.length := by
    rw [hbform, List.length_append, hhead]; omega
  have htake : b.take 24 = putInt64 m.Header.SenderID ++ putInt64 m.Header.MessageType ++
      putInt64 S := by
    rw [hbform, List.take_left' hhead]
  have hdrop : b.drop 24 = (putInt64 m.Payload.Proposal ++ body) ++ rest := by
    rw [hbform, List.drop_left' hhead]
  have hfield : (b.drop 16).take 8 = putInt64 S := by
    rw [hbform]
    exact frame_payloadSize_field _ _ _ _ (putInt64_length _) (putInt64_length _)
      (putInt64_length _)
  have hP : toInt64 (beUint ((b.drop 16).take 8)) = S := by
    rw [hfield, putInt64, beUint_putUint64 _ (toUint64_lt _), toInt64_toUint64 _ hSint]
  obtain ⟨c1, hr1, hj1⟩ := readFully_some conn 24 (by rw [hb]; exact h24)
  rw [hb] at hr1 hj1
  have hnp : makePanics S = false := by
    simp only [makePanics, maxAlloc, decide_eq_false_iff_not]; omega
  have hpos : S > 0 := by omega
  have hpl : (putInt64 m.Payload.Proposal ++ body).length = S.toNat := by omega
  obtain ⟨c2, hr2, hj2⟩ := readFully_some c1 S.toNat (by
    rw [hj1, hdrop, List.length_append]; omega)
  rw [hj1, hdrop, List.take_left' hpl] at hr2
  rw [hj1, hdrop, List.drop_left' hpl] at hj2
  refine ⟨c2, ?_, hj2⟩
  rw [readAndParseMessage_header conn c1 b h24 hr1, hP, hnp]
  simp only [Bool.false_eq_true, if_false, if_pos hpos, hr2, htake]
  rw [← hframe, hd2]
  have : (data.length : Int) - 24 = S := by omega
  rw [this]
  rfl

theorem readCalls_frames (ms : List Message) : ∀ (bytes rest : List Byte) (conn : Conn),
    (∀ m ∈ ms, m.framable) → encodeFrames ms = some bytes → conn.flatten = bytes ++ rest →
    ∃ conn1, readCalls ms.length conn =
        (ms.map (fun m => GoResult.ok m.withPayloadSize), conn1) ∧ conn1.flatten = rest := by
  induction ms with
  | nil =>
    intro bytes rest conn _ he hc
    simp only [encodeFrames, Option.some.injEq] at he
    subst he
    exact ⟨conn, rfl, by simpa using hc⟩
  | cons m ms ih =>
    intro bytes rest conn hall he hc
    unfold encodeFrames at he
    cases hf : ConvertToBinary m with
    | error e => rw [hf] at he; exact absurd he (by simp)
    | ok frame =>
      rw [hf] at he
      cases hrest : encodeFrames ms with
      | none => rw [hrest] at he; exact absurd he (by simp)
      | some more =>
        rw [hrest] at he
        simp only [Option.some.injEq] at he
        subst he
        obtain ⟨c1, h1, hj1⟩ := readAndParseMessage_frame m (hall m (by simp)) frame
          (more ++ rest) conn hf (by rw [hc, List.append_assoc])
        obtain ⟨c2, h2, hj2⟩ := ih more rest c1 (fun x hx => hall x (by simp [hx])) hrest hj1
        refine ⟨c2, ?_, hj2⟩
        simp only [List.length_cons, readCalls, h1, h2, List.map_cons]

set_option maxRecDepth 4000 in
/-- C23 (failing input). The message with sender 1, kind 1, proposal 5 and the
empty string is encoded into one frame; a connection delivers exactly that
frame; the first call of `readAndParseMessage` returns the error "failed to
read string Value" and the reader loop ends without a message. -/
theorem C23_empty_string_frame_not_read :
    encodeFrames [⟨⟨1, 1, 0⟩, ⟨5, Value.str []⟩⟩] =
      some (putInt64 1 ++ putInt64 1 ++ putInt64 24 ++
        (putInt64 5 ++ (putInt64 3 ++ putInt64 0 ++ [])) ++ []) ∧
    readCalls 1 [putInt64 1 ++ putInt64 1 ++ putInt64 24 ++
        (putInt64 5 ++ (putInt64 3 ++ putInt64 0 ++ [])) ++ []] =
      ([GoResult.err CodecError.readStringValue], []) := by
  constructor
  · rfl
  · decide

end Paxos
